import Mathlib

/-!
Verification development for the template-compiler core of the vue-design
repository.  The JavaScript sources under `src/` are shallowly embedded as
executable Lean definitions: pure functions become Lean functions, the
undefined/set distinction of JavaScript object fields becomes `Option`,
strings that are scanned character by character become `List Char`.
Theorems at the end of the file settle the specification claims against
these definitions.
-/

namespace VueSpec

/-!
## Static optimizer — `src/src/compiler/optimizer.js`

The AST node model keeps exactly the fields the optimizer reads.  An element
(`type === 1`) carries its directive flags; `exprN` is a `type === 2`
interpolation node and `textN` a `type === 3` plain-text node, each carrying
only its `static` flag (`none` = the field is absent, as after parsing).
`ifBlocks` holds the blocks of `ifConditions[1..]`: entry `0` of
`ifConditions` is the node itself and both optimizer loops start at index 1.
`keysAllStatic` abstracts the per-node check
`Object.keys(node).every(isStaticKey)` and `inlineTemplateAttr` abstracts
`node.attrsMap['inline-template'] != null`.
-/

structure ElemData where
  tag : String
  pre : Bool
  hasBindings : Bool
  hasIf : Bool
  hasFor : Bool
  once : Bool
  inlineTemplateAttr : Bool
  keysAllStatic : Bool
  static : Option Bool
  staticRoot : Option Bool
  staticInFor : Option Bool
deriving DecidableEq, Repr

inductive AST where
  | elem (d : ElemData) (children : List AST) (ifBlocks : List AST)
  | exprN (static : Option Bool)
  | textN (static : Option Bool)
deriving Repr

/-- Modelled from the spec: `isBuiltInTag` comes from `shared/util`, which is
not under `src/`; the spec describes it as "a fixed set of framework-builtin
virtual tags" and the optimizer comments name slot and component. -/
def isBuiltInTag (tag : String) : Bool :=
  tag == "slot" || tag == "component"

/-- `isDirectChildOfTemplateFor` walks the `parent` chain; the chain is
embedded as the list of `(tag, for-flag)` pairs of the ancestors, nearest
first. -/
def isDirectChildOfTemplateFor : List (String × Bool) → Bool
  | [] => false
  | (tag, hasFor) :: rest =>
    if tag != "template" then false
    else if hasFor then true
    else isDirectChildOfTemplateFor rest

/-- `isStatic` of optimizer.js, element case (`type === 1`).  The platform
predicate `options.isReservedTag` is a parameter. -/
def isStaticElem (isReservedTag : String → Bool) (anc : List (String × Bool))
    (d : ElemData) : Bool :=
  d.pre ||
    (!d.hasBindings && !d.hasIf && !d.hasFor &&
      !isBuiltInTag d.tag &&
      isReservedTag d.tag &&
      !isDirectChildOfTemplateFor anc &&
      d.keysAllStatic)

def staticFlag : AST → Option Bool
  | .elem d _ _ => d.static
  | .exprN s => s
  | .textN s => s

def staticRootFlag : AST → Option Bool
  | .elem d _ _ => d.staticRoot
  | .exprN _ => none
  | .textN _ => none

/-- Truthiness of a possibly-absent boolean field. -/
def staticTruthy (o : Option Bool) : Bool := o == some true

/-- The recursion condition of `markStatic`: marking only descends into a
node that is a platform-reserved tag, or a `slot`, or carries an
`inline-template` attribute (negation of the early return in the source). -/
def recurseCond (isReservedTag : String → Bool) (d : ElemData) : Bool :=
  isReservedTag d.tag || d.tag == "slot" || d.inlineTemplateAttr

mutual

/-- `markStatic` of optimizer.js.  `anc` is the `parent` chain of the node
as `(tag, for-flag)` pairs, nearest ancestor first; blocks in `ifConditions`
share the parent of the owning node, so the same chain is passed to them. -/
def markStatic (isRes : String → Bool) (anc : List (String × Bool)) : AST → AST
  | .exprN _ => .exprN (some false)
  | .textN _ => .textN (some true)
  | .elem d cs bs =>
    let s0 := isStaticElem isRes anc d
    if !isRes d.tag && d.tag != "slot" && !d.inlineTemplateAttr then
      .elem { d with static := some s0 } cs bs
    else
      let cs2 := markStaticChildren isRes ((d.tag, d.hasFor) :: anc) cs
      let bs2 := markStaticChildren isRes anc bs
      let s1 := s0 && cs2.all (fun c => staticFlag c == some true) &&
        bs2.all (fun b => staticFlag b == some true)
      .elem { d with static := some s1 } cs2 bs2

def markStaticChildren (isRes : String → Bool) (anc : List (String × Bool)) :
    List AST → List AST
  | [] => []
  | c :: cs => markStatic isRes anc c :: markStaticChildren isRes anc cs

end

/-- The `children.length === 1 && children[0].type === 3` test of
`markStaticRoots`. -/
def isTextType3 : AST → Bool
  | .textN _ => true
  | _ => false

def singleTextChild (cs : List AST) : Bool :=
  match cs with
  | [c] => isTextType3 c
  | _ => false

mutual

/-- `markStaticRoots` of optimizer.js.  When a node qualifies as a static
root the source returns without visiting its children. -/
def markStaticRoots (isInFor : Bool) : AST → AST
  | .exprN s => .exprN s
  | .textN s => .textN s
  | .elem d cs bs =>
    let d1 := if staticTruthy d.static || d.once then
        { d with staticInFor := some isInFor } else d
    if staticTruthy d1.static && !cs.isEmpty && !singleTextChild cs then
      .elem { d1 with staticRoot := some true } cs bs
    else
      let d2 := { d1 with staticRoot := some false }
      .elem d2 (markStaticRootsChildren (isInFor || d2.hasFor) cs)
        (markStaticRootsChildren isInFor bs)

def markStaticRootsChildren (isInFor : Bool) : List AST → List AST
  | [] => []
  | c :: cs => markStaticRoots isInFor c :: markStaticRootsChildren isInFor cs

end

/-- `optimize` of optimizer.js: the two passes in order (the source mutates
the tree in place; the embedding returns the transformed tree). -/
def optimizeAst (isRes : String → Bool) : Option AST → Option AST
  | none => none
  | some root => some (markStaticRoots false (markStatic isRes [] root))

mutual

/-- A tree all of whose `static`, `staticRoot` and `staticInFor` fields are
absent — the shape in which the parser hands trees to the optimizer (the
parser never writes any of the three fields). -/
def flagsUnset : AST → Bool
  | .elem d cs bs =>
    d.static == none && d.staticRoot == none && d.staticInFor == none &&
      flagsUnsetChildren cs && flagsUnsetChildren bs
  | .exprN s => s == none
  | .textN s => s == none

def flagsUnsetChildren : List AST → Bool
  | [] => true
  | c :: cs => flagsUnset c && flagsUnsetChildren cs

end

mutual

/-- Downward static propagation: on every element into which marking
recurses, `static = true` forces `static = true` on every child and every
if-branch block. -/
def staticDownB (isRes : String → Bool) : AST → Bool
  | .elem d cs bs =>
    (if recurseCond isRes d && staticTruthy d.static then
        cs.all (fun c => staticFlag c == some true) &&
          bs.all (fun b => staticFlag b == some true)
      else true) &&
      staticDownChildren isRes cs && staticDownChildren isRes bs
  | .exprN _ => true
  | .textN _ => true

def staticDownChildren (isRes : String → Bool) : List AST → Bool
  | [] => true
  | c :: cs => staticDownB isRes c && staticDownChildren isRes cs

end

mutual

/-- The subtree contains, within the region `markStatic` traverses, a
non-pre node carrying a loop, a conditional or a dynamic binding. -/
def containsDynB (isRes : String → Bool) : AST → Bool
  | .elem d cs bs =>
    (!d.pre && (d.hasBindings || d.hasIf || d.hasFor)) ||
      (recurseCond isRes d &&
        (containsDynChildren isRes cs || containsDynChildren isRes bs))
  | .exprN _ => false
  | .textN _ => false

def containsDynChildren (isRes : String → Bool) : List AST → Bool
  | [] => false
  | c :: cs => containsDynB isRes c || containsDynChildren isRes cs

end

mutual

/-- Every `staticRoot` field in the tree is absent. -/
def staticRootNone : AST → Bool
  | .elem d cs bs =>
    d.staticRoot == none && staticRootNoneChildren cs && staticRootNoneChildren bs
  | .exprN _ => true
  | .textN _ => true

def staticRootNoneChildren : List AST → Bool
  | [] => true
  | c :: cs => staticRootNone c && staticRootNoneChildren cs

end

/-- The local static-root qualification test of `markStaticRoots`. -/
def qualifiesRoot (d : ElemData) (cs : List AST) : Bool :=
  staticTruthy d.static && !cs.isEmpty && !singleTextChild cs

mutual

/-- Globally, a node marked `staticRoot = true` satisfies the qualification
test (static, nonempty children, not a single text child). -/
def noMarkedRootB : AST → Bool
  | .elem d cs bs =>
    (!(d.staticRoot == some true) || qualifiesRoot d cs) &&
      noMarkedRootChildren cs && noMarkedRootChildren bs
  | .exprN _ => true
  | .textN _ => true

def noMarkedRootChildren : List AST → Bool
  | [] => true
  | c :: cs => noMarkedRootB c && noMarkedRootChildren cs

end

mutual

/-- Globally, no node whose children are a single text node is marked
`staticRoot = true`. -/
def singleTextNeverRootB : AST → Bool
  | .elem d cs bs =>
    !(d.staticRoot == some true && singleTextChild cs) &&
      singleTextNeverRootChildren cs && singleTextNeverRootChildren bs
  | .exprN _ => true
  | .textN _ => true

def singleTextNeverRootChildren : List AST → Bool
  | [] => true
  | c :: cs => singleTextNeverRootB c && singleTextNeverRootChildren cs

end

mutual

/-- The visited region of the top-down pass: starting from the root, every
element carries a decided `staticRoot` flag equal to its qualification test,
and recursion continues below exactly the non-qualified nodes (the pass
returns early below a marked static root, leaving that subtree undecided). -/
def rootsOkB : AST → Bool
  | .elem d cs bs =>
    (d.staticRoot == some (qualifiesRoot d cs)) &&
      (if qualifiesRoot d cs then true
        else rootsOkChildren cs && rootsOkChildren bs)
  | .exprN _ => true
  | .textN _ => true

def rootsOkChildren : List AST → Bool
  | [] => true
  | c :: cs => rootsOkB c && rootsOkChildren cs

end

mutual

theorem flagsUnset_staticDown (isRes : String → Bool) :
    (t : AST) → flagsUnset t = true → staticDownB isRes t = true
  | .exprN _, _ => rfl
  | .textN _, _ => rfl
  | .elem d cs bs, h => by
    simp only [flagsUnset, Bool.and_eq_true, beq_iff_eq] at h
    obtain ⟨⟨⟨⟨h1, _⟩, _⟩, h4⟩, h5⟩ := h
    simp only [staticDownB, staticTruthy, h1, Bool.and_eq_true]
    refine ⟨⟨?_, flagsUnset_staticDownChildren isRes cs h4⟩,
      flagsUnset_staticDownChildren isRes bs h5⟩
    simp

theorem flagsUnset_staticDownChildren (isRes : String → Bool) :
    (l : List AST) → flagsUnsetChildren l = true → staticDownChildren isRes l = true
  | [], _ => rfl
  | c :: cs, h => by
    simp only [flagsUnsetChildren, Bool.and_eq_true] at h
    simp only [staticDownChildren, Bool.and_eq_true]
    exact ⟨flagsUnset_staticDown isRes c h.1,
      flagsUnset_staticDownChildren isRes cs h.2⟩

end

mutual

theorem flagsUnset_staticRootNone :
    (t : AST) → flagsUnset t = true → staticRootNone t = true
  | .exprN _, _ => rfl
  | .textN _, _ => rfl
  | .elem d cs bs, h => by
    simp only [flagsUnset, Bool.and_eq_true, beq_iff_eq] at h
    obtain ⟨⟨⟨⟨_, h2⟩, _⟩, h4⟩, h5⟩ := h
    simp only [staticRootNone, h2, Bool.and_eq_true, beq_iff_eq]
    exact ⟨⟨trivial, flagsUnset_staticRootNoneChildren cs h4⟩,
      flagsUnset_staticRootNoneChildren bs h5⟩

theorem flagsUnset_staticRootNoneChildren :
    (l : List AST) → flagsUnsetChildren l = true → staticRootNoneChildren l = true
  | [], _ => rfl
  | c :: cs, h => by
    simp only [flagsUnsetChildren, Bool.and_eq_true] at h
    simp only [staticRootNoneChildren, Bool.and_eq_true]
    exact ⟨flagsUnset_staticRootNone c h.1,
      flagsUnset_staticRootNoneChildren cs h.2⟩

end

mutual

theorem markStatic_staticRootNone (isRes : String → Bool) (anc : List (String × Bool)) :
    (t : AST) → staticRootNone t = true → staticRootNone (markStatic isRes anc t) = true
  | .exprN _, _ => rfl
  | .textN _, _ => rfl
  | .elem d cs bs, h => by
    simp only [staticRootNone, Bool.and_eq_true, beq_iff_eq] at h
    obtain ⟨⟨h1, h2⟩, h3⟩ := h
    simp only [markStatic]
    split
    · simp only [staticRootNone, Bool.and_eq_true, beq_iff_eq]
      exact ⟨⟨h1, h2⟩, h3⟩
    · simp only [staticRootNone, Bool.and_eq_true, beq_iff_eq]
      exact ⟨⟨h1, markStatic_staticRootNoneChildren isRes _ cs h2⟩,
        markStatic_staticRootNoneChildren isRes anc bs h3⟩

theorem markStatic_staticRootNoneChildren (isRes : String → Bool) (anc : List (String × Bool)) :
    (l : List AST) → staticRootNoneChildren l = true →
      staticRootNoneChildren (markStaticChildren isRes anc l) = true
  | [], _ => rfl
  | c :: cs, h => by
    simp only [staticRootNoneChildren, Bool.and_eq_true] at h
    simp only [markStaticChildren, staticRootNoneChildren, Bool.and_eq_true]
    exact ⟨markStatic_staticRootNone isRes anc c h.1,
      markStatic_staticRootNoneChildren isRes anc cs h.2⟩

end

theorem earlyCond_eq_not_recurse (isRes : String → Bool) (d : ElemData) :
    (!isRes d.tag && (d.tag != "slot") && !d.inlineTemplateAttr) =
      !(recurseCond isRes d) := by
  simp [recurseCond, Bool.not_or, bne]

mutual

theorem markStatic_staticDown (isRes : String → Bool) (anc : List (String × Bool)) :
    (t : AST) → flagsUnset t = true →
      staticDownB isRes (markStatic isRes anc t) = true
  | .exprN _, _ => rfl
  | .textN _, _ => rfl
  | .elem d cs bs, h => by
    simp only [flagsUnset, Bool.and_eq_true, beq_iff_eq] at h
    obtain ⟨⟨⟨⟨_, _⟩, _⟩, h4⟩, h5⟩ := h
    simp only [markStatic]
    split
    next hc =>
      simp only [Bool.and_eq_true, Bool.not_eq_true', bne_iff_ne] at hc
      obtain ⟨⟨ha, hb⟩, hi⟩ := hc
      simp only [staticDownB, Bool.and_eq_true]
      refine ⟨⟨?_, flagsUnset_staticDownChildren isRes cs h4⟩,
        flagsUnset_staticDownChildren isRes bs h5⟩
      simp [recurseCond, ha, hb, hi]
    next hc =>
      simp only [staticDownB, Bool.and_eq_true]
      refine ⟨⟨?_, markStatic_staticDownChildren isRes _ cs h4⟩,
        markStatic_staticDownChildren isRes anc bs h5⟩
      split
      next hcond =>
        simp only [staticTruthy, beq_iff_eq, Option.some.injEq,
          Bool.and_eq_true] at hcond
        obtain ⟨-, ⟨⟨-, hX⟩, hY⟩⟩ := hcond
        rw [Bool.and_eq_true]
        exact ⟨hX, hY⟩
      next => rfl

theorem markStatic_staticDownChildren (isRes : String → Bool) (anc : List (String × Bool)) :
    (l : List AST) → flagsUnsetChildren l = true →
      staticDownChildren isRes (markStaticChildren isRes anc l) = true
  | [], _ => rfl
  | c :: cs, h => by
    simp only [flagsUnsetChildren, Bool.and_eq_true] at h
    simp only [markStaticChildren, staticDownChildren, Bool.and_eq_true]
    exact ⟨markStatic_staticDown isRes anc c h.1,
      markStatic_staticDownChildren isRes anc cs h.2⟩

end

mutual

theorem markStatic_dynFalse (isRes : String → Bool) (anc : List (String × Bool)) :
    (t : AST) → containsDynB isRes t = true →
      staticFlag (markStatic isRes anc t) = some false
  | .exprN _, _ => rfl
  | .textN _, h => by simp [containsDynB] at h
  | .elem d cs bs, h => by
    simp only [containsDynB, Bool.or_eq_true, Bool.and_eq_true,
      Bool.not_eq_true'] at h
    rcases h with ⟨hpre, hdyn⟩ | ⟨hrec, hch⟩
    · have hs0 : isStaticElem isRes anc d = false := by
        rcases hdyn with hx | hx
        · rcases hx with hx | hx <;> simp [isStaticElem, hpre, hx]
        · simp [isStaticElem, hpre, hx]
      simp only [markStatic]
      split <;> simp [staticFlag, hs0]
    · have hearly : (!isRes d.tag && (d.tag != "slot") && !d.inlineTemplateAttr) = false := by
        rw [earlyCond_eq_not_recurse isRes d, hrec]; rfl
      simp only [markStatic, hearly, Bool.false_eq_true, if_false]
      rcases hch with hch | hch
      · rw [markStatic_dynFalseChildren isRes ((d.tag, d.hasFor) :: anc) cs hch,
          Bool.and_false, Bool.false_and]
        rfl
      · rw [markStatic_dynFalseChildren isRes anc bs hch, Bool.and_false]
        rfl

theorem markStatic_dynFalseChildren (isRes : String → Bool) (anc : List (String × Bool)) :
    (l : List AST) → containsDynChildren isRes l = true →
      ((markStaticChildren isRes anc l).all
        (fun c => staticFlag c == some true)) = false
  | [], h => by simp [containsDynChildren] at h
  | c :: cs, h => by
    simp only [containsDynChildren, Bool.or_eq_true] at h
    simp only [markStaticChildren, List.all_cons]
    rcases h with hc | hcs
    · simp [markStatic_dynFalse isRes anc c hc]
    · simp [markStatic_dynFalseChildren isRes anc cs hcs]

end

theorem isTextType3_markStaticRoots (i : Bool) (c : AST) :
    isTextType3 (markStaticRoots i c) = isTextType3 c := by
  cases c with
  | elem d cs bs =>
    simp only [markStaticRoots]
    split <;> split <;> rfl
  | exprN s => rfl
  | textN s => rfl

theorem singleTextChild_markStaticRootsChildren (i : Bool) (cs : List AST) :
    singleTextChild (markStaticRootsChildren i cs) = singleTextChild cs := by
  match cs with
  | [] => rfl
  | [c] =>
    simp only [markStaticRootsChildren, singleTextChild]
    exact isTextType3_markStaticRoots i c
  | c :: c2 :: rest => rfl

theorem isEmpty_markStaticRootsChildren (i : Bool) (cs : List AST) :
    (markStaticRootsChildren i cs).isEmpty = cs.isEmpty := by
  cases cs <;> rfl

mutual

theorem staticRootNone_noMarked :
    (t : AST) → staticRootNone t = true →
      noMarkedRootB t = true ∧ singleTextNeverRootB t = true
  | .exprN _, _ => ⟨rfl, rfl⟩
  | .textN _, _ => ⟨rfl, rfl⟩
  | .elem d cs bs, h => by
    simp only [staticRootNone, Bool.and_eq_true, beq_iff_eq] at h
    obtain ⟨⟨h1, h2⟩, h3⟩ := h
    have hcs := staticRootNone_noMarkedChildren cs h2
    have hbs := staticRootNone_noMarkedChildren bs h3
    constructor
    · simp only [noMarkedRootB, Bool.and_eq_true]
      exact ⟨⟨by simp [h1], hcs.1⟩, hbs.1⟩
    · simp only [singleTextNeverRootB, Bool.and_eq_true]
      exact ⟨⟨by simp [h1], hcs.2⟩, hbs.2⟩

theorem staticRootNone_noMarkedChildren :
    (l : List AST) → staticRootNoneChildren l = true →
      noMarkedRootChildren l = true ∧ singleTextNeverRootChildren l = true
  | [], _ => ⟨rfl, rfl⟩
  | c :: cs, h => by
    simp only [staticRootNoneChildren, Bool.and_eq_true] at h
    have hc := staticRootNone_noMarked c h.1
    have hcs := staticRootNone_noMarkedChildren cs h.2
    exact ⟨by simp [noMarkedRootChildren, hc.1, hcs.1],
      by simp [singleTextNeverRootChildren, hc.2, hcs.2]⟩

end

mutual

theorem markStaticRoots_ok (i : Bool) :
    (t : AST) → staticRootNone t = true →
      noMarkedRootB (markStaticRoots i t) = true ∧
        singleTextNeverRootB (markStaticRoots i t) = true ∧
        rootsOkB (markStaticRoots i t) = true
  | .exprN _, _ => ⟨rfl, rfl, rfl⟩
  | .textN _, _ => ⟨rfl, rfl, rfl⟩
  | .elem d cs bs, h => by
    simp only [staticRootNone, Bool.and_eq_true, beq_iff_eq] at h
    obtain ⟨⟨h1, h2⟩, h3⟩ := h
    have hv2 := staticRootNone_noMarkedChildren cs h2
    have hv3 := staticRootNone_noMarkedChildren bs h3
    simp only [markStaticRoots]
    cases hf : (staticTruthy d.static || d.once) with
    | true =>
      simp only [hf, if_true]
      split
      next hq =>
        obtain ⟨⟨hqs, hqne⟩, hqnt⟩ := by
          simpa only [Bool.and_eq_true] using hq
        rw [Bool.not_eq_true'] at hqnt
        refine ⟨?_, ?_, ?_⟩
        · simp only [noMarkedRootB, Bool.and_eq_true]
          refine ⟨⟨?_, hv2.1⟩, hv3.1⟩
          simp only [qualifiesRoot]
          simp [hqs, hqne, hqnt]
        · simp only [singleTextNeverRootB, Bool.and_eq_true]
          exact ⟨⟨by simp [hqnt], hv2.2⟩, hv3.2⟩
        · have hqr : qualifiesRoot
              { d with staticInFor := some i, staticRoot := some true } cs = true := by
            simp only [qualifiesRoot]
            simp [hqs, hqne, hqnt]
          simp only [rootsOkB, hqr, if_true]
          simp
      next hq =>
        have hrec2 := markStaticRoots_okChildren (i || d.hasFor) cs h2
        have hrec3 := markStaticRoots_okChildren i bs h3
        rw [Bool.not_eq_true] at hq
        refine ⟨?_, ?_, ?_⟩
        · simp only [noMarkedRootB, Bool.and_eq_true]
          exact ⟨⟨by simp, hrec2.1⟩, hrec3.1⟩
        · simp only [singleTextNeverRootB, Bool.and_eq_true]
          exact ⟨⟨by simp, hrec2.2.1⟩, hrec3.2.1⟩
        · have hqr : qualifiesRoot
              { d with staticInFor := some i, staticRoot := some false }
              (markStaticRootsChildren (i || d.hasFor) cs) = false := by
            simp only [qualifiesRoot, isEmpty_markStaticRootsChildren,
              singleTextChild_markStaticRootsChildren]
            exact hq
          simp only [rootsOkB, hqr]
          simp [hrec2.2.2, hrec3.2.2]
    | false =>
      simp only [hf, Bool.false_eq_true, if_false]
      split
      next hq =>
        obtain ⟨⟨hqs, hqne⟩, hqnt⟩ := by
          simpa only [Bool.and_eq_true] using hq
        rw [Bool.not_eq_true'] at hqnt
        refine ⟨?_, ?_, ?_⟩
        · simp only [noMarkedRootB, Bool.and_eq_true]
          refine ⟨⟨?_, hv2.1⟩, hv3.1⟩
          simp only [qualifiesRoot]
          simp [hqs, hqne, hqnt]
        · simp only [singleTextNeverRootB, Bool.and_eq_true]
          exact ⟨⟨by simp [hqnt], hv2.2⟩, hv3.2⟩
        · have hqr : qualifiesRoot { d with staticRoot := some true } cs = true := by
            simp only [qualifiesRoot]
            simp [hqs, hqne, hqnt]
          simp only [rootsOkB, hqr, if_true]
          simp
      next hq =>
        have hrec2 := markStaticRoots_okChildren (i || d.hasFor) cs h2
        have hrec3 := markStaticRoots_okChildren i bs h3
        rw [Bool.not_eq_true] at hq
        refine ⟨?_, ?_, ?_⟩
        · simp only [noMarkedRootB, Bool.and_eq_true]
          exact ⟨⟨by simp, hrec2.1⟩, hrec3.1⟩
        · simp only [singleTextNeverRootB, Bool.and_eq_true]
          exact ⟨⟨by simp, hrec2.2.1⟩, hrec3.2.1⟩
        · have hqr : qualifiesRoot { d with staticRoot := some false }
              (markStaticRootsChildren (i || d.hasFor) cs) = false := by
            simp only [qualifiesRoot, isEmpty_markStaticRootsChildren,
              singleTextChild_markStaticRootsChildren]
            exact hq
          simp only [rootsOkB, hqr]
          simp [hrec2.2.2, hrec3.2.2]

theorem markStaticRoots_okChildren (i : Bool) :
    (l : List AST) → staticRootNoneChildren l = true →
      noMarkedRootChildren (markStaticRootsChildren i l) = true ∧
        singleTextNeverRootChildren (markStaticRootsChildren i l) = true ∧
        rootsOkChildren (markStaticRootsChildren i l) = true
  | [], _ => ⟨rfl, rfl, rfl⟩
  | c :: cs, h => by
    simp only [staticRootNoneChildren, Bool.and_eq_true] at h
    have hc := markStaticRoots_ok i c h.1
    have hcs := markStaticRoots_okChildren i cs h.2
    refine ⟨?_, ?_, ?_⟩
    · simp [markStaticRootsChildren, noMarkedRootChildren, hc.1, hcs.1]
    · simp [markStaticRootsChildren, singleTextNeverRootChildren, hc.2.1, hcs.2.1]
    · simp [markStaticRootsChildren, rootsOkChildren, hc.2.2, hcs.2.2]

end

/-! ### Demo inputs and accessors for the optimizer claims -/

/-- A small platform-reserved-tag predicate for concrete inputs. -/
def demoIsRes : String → Bool := fun t => t == "div" || t == "span" || t == "b"

/-- An element as created by the parser: no directives, no optimizer flags. -/
def blankElem (tag : String) : ElemData :=
  ⟨tag, false, false, false, false, false, false, true, none, none, none⟩

/-- The AST of `<my-comp v-pre>text</my-comp>`: a non-reserved (component)
tag carrying `v-pre`, with one text child. -/
def preComponentTree : AST :=
  .elem { blankElem "my-comp" with pre := true } [.textN none] []

/-- The AST of `<div>text</div>`. -/
def demoStaticTreeC1 : AST := .elem (blankElem "div") [.textN none] []

/-- The AST of `<div><span v-if="c"></span></div>`. -/
def demoDynTreeC1 : AST :=
  .elem (blankElem "div") [.elem { blankElem "span" with hasIf := true } [] []] []

/-- The AST of `<div><span>text<b></b></span></div>`. -/
def demoC6Tree : AST :=
  .elem (blankElem "div")
    [.elem (blankElem "span") [.textN none, .elem (blankElem "b") [] []] []] []

def childStaticFlags : AST → List (Option Bool)
  | .elem _ cs _ => cs.map staticFlag
  | _ => []

def nthChild : AST → Nat → Option AST
  | .elem _ cs _, i => cs.get? i
  | _, _ => none

def childCount : AST → Nat
  | .elem _ cs _ => cs.length
  | _ => 0

def singleTextChildOf : AST → Bool
  | .elem _ cs _ => singleTextChild cs
  | _ => false

/-- C1, counterexample: on the parse output of `<my-comp v-pre>text</my-comp>`
(flags all unset, as the parser produces), `markStatic` marks the root
`static = true` but returns before visiting its children, so the text
descendant is left with no `static` flag at all — it is not marked
`static = true` as the claim requires of every descendant. -/
theorem claim_C1_counterexample :
    flagsUnset preComponentTree = true ∧
      staticFlag (markStatic demoIsRes [] preComponentTree) = some true ∧
      childStaticFlags (markStatic demoIsRes [] preComponentTree) = [none] := by
  decide

/-- C1 (amended): restricted to the region `markStatic` actually traverses.
(1) After marking a parser-produced tree (all flags unset), every element
into which marking recurses (platform-reserved tag, or `slot`, or
`inline-template`) that ends `static = true` has every child and every
if-branch block marked `static = true`.  (2) A non-pre node carrying a
loop, a conditional, or a dynamic binding anywhere in the traversed region
forces `static = false` on the subtree root, hence on every strict ancestor
reachable through traversed nodes.  The claim as stated fails only below
`v-pre` components, where marking stops (see the counterexample). -/
theorem claim_C1_static_propagation (isRes : String → Bool)
    (anc : List (String × Bool)) (t : AST) :
    (flagsUnset t = true → staticDownB isRes (markStatic isRes anc t) = true) ∧
      (containsDynB isRes t = true →
        staticFlag (markStatic isRes anc t) = some false) :=
  ⟨markStatic_staticDown isRes anc t, markStatic_dynFalse isRes anc t⟩

theorem claim_C1_witness :
    (flagsUnset demoStaticTreeC1 = true ∧
      staticDownB demoIsRes (markStatic demoIsRes [] demoStaticTreeC1) = true) ∧
      (containsDynB demoIsRes demoDynTreeC1 = true ∧
        staticFlag (markStatic demoIsRes [] demoDynTreeC1) = some false) :=
  ⟨⟨by decide,
      (claim_C1_static_propagation demoIsRes [] demoStaticTreeC1).1 (by decide)⟩,
    ⟨by decide,
      (claim_C1_static_propagation demoIsRes [] demoDynTreeC1).2 (by decide)⟩⟩

/-- C6, counterexample: optimizing the parse output of
`<div>&lt;span>text&lt;b>&lt;/b>&lt;/span></div>` marks the root `div` as a
static root and returns without visiting the `span`.  The `span` is static
(`static = some true`), has two children, and is not a single-static-text
case, yet its `staticRoot` flag stays unset — so "a node is marked
staticRoot exactly when it is static, has at least one child, and its
children are not just a single static-text child" fails in the
qualifies-implies-marked direction. -/
theorem claim_C6_counterexample :
    (optimizeAst demoIsRes (some demoC6Tree)).map staticRootFlag =
        some (some true) ∧
      ((optimizeAst demoIsRes (some demoC6Tree)).bind (fun u => nthChild u 0)).map
          (fun c => (staticFlag c, staticRootFlag c, childCount c,
            singleTextChildOf c)) =
        some (some true, none, 2, false) := by
  decide

/-- C6 (amended): after `optimize` on a parser-produced tree (all flags
unset): (1) no node whose children are a single static text node is ever
marked `staticRoot = true`; (2) globally, every node marked
`staticRoot = true` is static, has at least one child, and is not the
single-static-text case; (3) along the region the top-down pass visits —
stopping below every marked static root — `staticRoot` is decided and equals
that qualification test exactly.  Nodes strictly below a marked static root
are left with `staticRoot` unset, which is the only failure of the original
"exactly when" claim. -/
theorem claim_C6_staticRoot_rules (isRes : String → Bool) (t : AST)
    (h : flagsUnset t = true) :
    singleTextNeverRootB (markStaticRoots false (markStatic isRes [] t)) = true ∧
      noMarkedRootB (markStaticRoots false (markStatic isRes [] t)) = true ∧
      rootsOkB (markStaticRoots false (markStatic isRes [] t)) = true := by
  have h1 := markStatic_staticRootNone isRes [] t (flagsUnset_staticRootNone t h)
  have h2 := markStaticRoots_ok false (markStatic isRes [] t) h1
  exact ⟨h2.2.1, h2.1, h2.2.2⟩

theorem claim_C6_witness :
    flagsUnset demoC6Tree = true ∧
      (singleTextNeverRootB
          (markStaticRoots false (markStatic demoIsRes [] demoC6Tree)) = true ∧
        noMarkedRootB
          (markStaticRoots false (markStatic demoIsRes [] demoC6Tree)) = true ∧
        rootsOkB
          (markStaticRoots false (markStatic demoIsRes [] demoC6Tree)) = true) :=
  ⟨by decide, claim_C6_staticRoot_rules demoIsRes demoC6Tree (by decide)⟩

/-!
## Compiler facade and cache — `src/src/compiler/create-compiler.js`

`compileToFunctions` caches by the string
`options.delimiters ? String(options.delimiters) + template : template`.
Reference identity of the compiled-artifact object is modelled by an
allocation id: each actual compilation allocates a fresh id, a cache hit
returns the stored record unchanged.
-/

structure FnArtifact where
  id : Nat
deriving DecidableEq, Repr

structure CompileCache where
  entries : List (String × FnArtifact)
  nextId : Nat
deriving DecidableEq, Repr

/-- JavaScript `String` on a two-element array joins the parts with a
comma, so the key of `(delimiters, template)` is `open ++ "," ++ close ++
template` when delimiters are given and the bare template otherwise. -/
def cacheKey (delims : Option (String × String)) (template : String) : String :=
  match delims with
  | some d => d.1 ++ "," ++ d.2 ++ template
  | none => template

/-- The caching skeleton of `compileToFunctions`: on a hit return the stored
artifact with the cache unchanged; on a miss compile (allocate a fresh
artifact) and store it under the key. -/
def compileToFunctionsCached (st : CompileCache) (template : String)
    (delims : Option (String × String)) : FnArtifact × CompileCache :=
  let key := cacheKey delims template
  match st.entries.lookup key with
  | some res => (res, st)
  | none =>
    let res : FnArtifact := ⟨st.nextId⟩
    (res, ⟨(key, res) :: st.entries, st.nextId + 1⟩)

/-- C3: calling `compileToFunctions` a second time with the same template
and the same delimiters returns exactly the first call's artifact (the
cached reference) and leaves the cache state — including the allocation
counter — unchanged: nothing is recompiled. -/
theorem claim_C3_cache_idempotent (st : CompileCache) (template : String)
    (delims : Option (String × String)) :
    compileToFunctionsCached
        (compileToFunctionsCached st template delims).2 template delims =
      compileToFunctionsCached st template delims := by
  unfold compileToFunctionsCached
  cases h : st.entries.lookup (cacheKey delims template) with
  | some res => simp [h]
  | none => simp [h, List.lookup]

/-!
### Artifact conversion and generation errors — `createFunction` /
`compileToFunctions` of create-compiler.js

`new Function(code)` either succeeds or throws; the host behaviour is the
parameter `fnError` (`none` = succeeds, `some err` = throws `err`).  On a
throw `createFunction` records `(err, code)` in the passed error list and
returns the shared `noop` — the exception never propagates.
-/

inductive JSFun where
  | fn (code : String)
  | noop
deriving DecidableEq, Repr

def createFunction (fnError : String → Option String) (code : String)
    (errors : List (String × String)) : JSFun × List (String × String) :=
  match fnError code with
  | none => (.fn code, errors)
  | some err => (.noop, errors ++ [(err, code)])

structure CompiledOut where
  render : String
  staticRenderFns : List String
  errors : List String
  tips : List String
deriving DecidableEq, Repr

structure FnResult where
  render : JSFun
  staticRenderFns : List JSFun
  fnGenErrors : List (String × String)
  errors : List String
deriving DecidableEq, Repr

/-- The static-program half of the conversion:
`compiled.staticRenderFns.map(code => createFunction(code, fnGenErrors))`
with the single `fnGenErrors` array threaded through the calls. -/
def convertStatics (fnError : String → Option String) :
    List String → List (String × String) →
      List JSFun × List (String × String)
  | [], errs => ([], errs)
  | code :: codes, errs =>
    let x := createFunction fnError code errs
    let rest := convertStatics fnError codes x.2
    (x.1 :: rest.1, rest.2)

/-- The conversion step of `compileToFunctions` (lines 191-208 of
create-compiler.js): a fresh `fnGenErrors` list, `res.render` from the main
program text, `res.staticRenderFns` mapped over the static program texts
with the same `fnGenErrors` list threaded through; the template-error list
`compiled.errors` is carried over untouched. -/
def convertCompiled (fnError : String → Option String) (c : CompiledOut) :
    FnResult :=
  let r := createFunction fnError c.render []
  let s := convertStatics fnError c.staticRenderFns r.2
  ⟨r.1, s.1, s.2, c.errors⟩

theorem convertStatics_eq (fnError : String → Option String) :
    ∀ (codes : List String) (errs : List (String × String)),
      convertStatics fnError codes errs =
        (codes.map (fun code =>
            match fnError code with
            | none => JSFun.fn code
            | some _ => JSFun.noop),
          errs ++ codes.filterMap (fun code =>
            (fnError code).map (fun e => (e, code))))
  | [], errs => by simp [convertStatics]
  | code :: codes, errs => by
    simp only [convertStatics, List.map_cons, List.filterMap_cons]
    cases h : fnError code with
    | none =>
      rw [convertStatics_eq fnError codes]
      simp [createFunction, h]
    | some e =>
      rw [convertStatics_eq fnError codes]
      simp [createFunction, h]

/-- C9: when converting generated program text into an invocable artifact
throws, `compileToFunctions` never propagates: the failing render (or
static render) entry becomes the `noop` fallback, every failure is recorded
in the distinct `fnGenErrors` list (render failure first, then the static
failures in order), and the template-error list is carried over unchanged —
generation failures are never merged into it. -/
theorem claim_C9_generation_errors (fnError : String → Option String)
    (c : CompiledOut) :
    (∀ e, fnError c.render = some e →
      (convertCompiled fnError c).render = JSFun.noop ∧
        (e, c.render) ∈ (convertCompiled fnError c).fnGenErrors) ∧
      (convertCompiled fnError c).staticRenderFns =
        c.staticRenderFns.map (fun code =>
          match fnError code with
          | none => JSFun.fn code
          | some _ => JSFun.noop) ∧
      (convertCompiled fnError c).fnGenErrors =
        (match fnError c.render with
          | none => []
          | some e => [(e, c.render)]) ++
          c.staticRenderFns.filterMap (fun code =>
            (fnError code).map (fun e => (e, code))) ∧
      (convertCompiled fnError c).errors = c.errors := by
  simp only [convertCompiled]
  rw [convertStatics_eq fnError c.staticRenderFns]
  cases h : fnError c.render with
  | none =>
    refine ⟨fun e he => absurd he (by simp), ?_, ?_, ?_⟩ <;>
      simp [createFunction, h]
  | some e0 =>
    refine ⟨fun e he => ?_, by simp [createFunction, h],
      by simp [createFunction, h], by simp [createFunction, h]⟩
    obtain rfl : e0 = e := by injection he
    exact ⟨by simp [createFunction, h], by simp [createFunction, h]⟩

def demoFnError : String → Option String :=
  fun code => if code == "R" then some "boom" else none

def demoCompiled : CompiledOut := ⟨"R", ["S1"], ["template error"], []⟩

theorem claim_C9_witness :
    (convertCompiled demoFnError demoCompiled).render = JSFun.noop ∧
      ("boom", "R") ∈ (convertCompiled demoFnError demoCompiled).fnGenErrors ∧
      (convertCompiled demoFnError demoCompiled).errors = demoCompiled.errors :=
  have h := claim_C9_generation_errors demoFnError demoCompiled
  ⟨(h.1 "boom" rfl).1, (h.1 "boom" rfl).2, h.2.2.2⟩

/-!
## Code generator entry — `src/src/compiler/codegen/index.js`

`generate` creates a fresh `CodegenState` (empty static-render list, once id
0, pre false) and computes
`const code = ast ? genElement(ast, state) : '_c("div")'`, returning
`with(this){return <code>}` plus the state's static-render list.
`genElement` is a parameter here: no claim depends on its output, and the
quantification shows the rootless result is independent of it.
-/

structure CGState where
  staticRenderFns : List String
  onceId : Nat
  pre : Bool
deriving DecidableEq, Repr

structure CodegenResult where
  render : String
  staticRenderFns : List String
deriving DecidableEq, Repr

def generate {α : Type} (genElement : α → CGState → String × CGState)
    (ast : Option α) : CodegenResult :=
  let state : CGState := ⟨[], 0, false⟩
  match ast with
  | some a =>
    let r := genElement a state
    ⟨"with(this)\x7breturn " ++ r.1 ++ "\x7d", r.2.staticRenderFns⟩
  | none =>
    ⟨"with(this)\x7breturn " ++ "_c(\"div\")" ++ "\x7d", state.staticRenderFns⟩

/-- C10: with no root AST (empty or text-only template), `generate` returns
the fixed main program `_c("div")` (wrapped in the usual
`with(this){return ...}` shell) and an empty static-program list, for every
possible `genElement`. -/
theorem claim_C10_rootless_generate {α : Type}
    (genElement : α → CGState → String × CGState) :
    generate genElement (none : Option α) =
      ⟨"with(this)\x7breturn _c(\"div\")\x7d", []⟩ := rfl

/-!
## Character-level string utilities

JavaScript strings scanned by the parser regexes are embedded as `List
Char`.  `\s` in the source regexes is modelled by the ASCII whitespace
characters (the unicode space classes are not relevant to any claim).
-/

abbrev Str := List Char

def strL (s : String) : Str := s.toList

def isWS (c : Char) : Bool :=
  c == ' ' || c == '\t' || c == '\n' || c == '\r' || c == '\x0b' || c == '\x0c'

/-- JavaScript `String.prototype.trim`. -/
def jsTrim (s : Str) : Str :=
  ((s.dropWhile isWS).reverse.dropWhile isWS).reverse

/-- `JSON.stringify` on a string (the escapes needed by the embedded
templates; control characters below 0x20 other than the named ones do not
occur in any claim input). -/
def jsonEscapeChar (c : Char) : Str :=
  if c = '"' then ['\\', '"']
  else if c = '\\' then ['\\', '\\']
  else if c = '\n' then ['\\', 'n']
  else if c = '\r' then ['\\', 'r']
  else if c = '\t' then ['\\', 't']
  else [c]

def jsonStringify (s : Str) : Str :=
  '"' :: (s.map jsonEscapeChar).flatten ++ ['"']

/-!
## `parseFor` — `src/src/compiler/parser/index.js`, lines 835-875

`forAliasRE = /([\s\S]*?)\s+(?:in|of)\s+([\s\S]*)/`: the lazy first group
makes the match split at the earliest whitespace-delimited `in`/`of`;
`forIteratorRE = /,([^,\}\]]*)(?:,([^,\}\]]*))?$/` anchored at the end;
`stripParensRE = /^\(|\)$/g` removes one leading `(` and one trailing `)`.
-/

/-- After the lazy alias group: one-or-more whitespace, `in` or `of`, then
one-or-more whitespace; returns the remainder (the source of the loop). -/
def inOfAfterWS (rest : Str) : Option Str :=
  if (rest.takeWhile isWS).isEmpty then none
  else
    match rest.dropWhile isWS with
    | 'i' :: 'n' :: r2 =>
      if (r2.takeWhile isWS).isEmpty then none else some (r2.dropWhile isWS)
    | 'o' :: 'f' :: r2 =>
      if (r2.takeWhile isWS).isEmpty then none else some (r2.dropWhile isWS)
    | _ => none

/-- The `forAliasRE` match: the earliest split point wins (lazy group 1),
group 2 runs to the end of the expression. -/
def forAliasSplit : Str → Option (Str × Str)
  | [] => none
  | c :: rest =>
    match inOfAfterWS (c :: rest) with
    | some r2 => some ([], r2)
    | none => (forAliasSplit rest).map (fun p => (c :: p.1, p.2))

/-- `stripParensRE`: one leading `(` and one trailing `)`. -/
def stripParens (s : Str) : Str :=
  let s1 := match s with
    | '(' :: rest => rest
    | _ => s
  match s1.reverse with
  | ')' :: r => r.reverse
  | _ => s1

/-- The character class `[^,\}\]]` of `forIteratorRE`. -/
def notIterSep (c : Char) : Bool :=
  !(c == ',' || c == '\x7d' || c == ']')

/-- Matches the tail of `forIteratorRE` after its leading comma: group 1,
then optionally a comma and group 2, anchored at the end. -/
def forIterTail (tail : Str) : Option (Str × Option Str) :=
  let g1 := tail.takeWhile notIterSep
  match tail.dropWhile notIterSep with
  | [] => some (g1, none)
  | ',' :: r2 =>
    let g2 := r2.takeWhile notIterSep
    if (r2.dropWhile notIterSep).isEmpty then some (g1, some g2) else none
  | _ => none

/-- The `forIteratorRE` search: the earliest comma whose tail matches wins;
returns the match index and the two groups. -/
def forIteratorSearch : Str → Option (Nat × Str × Option Str)
  | [] => none
  | ',' :: rest =>
    match forIterTail rest with
    | some (g1, g2) => some (0, g1, g2)
    | none => (forIteratorSearch rest).map (fun p => (p.1 + 1, p.2))
  | _ :: rest => (forIteratorSearch rest).map (fun p => (p.1 + 1, p.2))

/-- The result record of `parseFor`; `forStr`/`aliasStr` model the `for` and
`alias` fields of the source (both are reserved words in Lean). -/
structure ForParseResult where
  forStr : Str
  aliasStr : Str
  iterator1 : Option Str
  iterator2 : Option Str
deriving DecidableEq, Repr

/-- `parseFor` of parser/index.js.  `iteratorMatch[2]` is only stored when
truthy, so an empty second group is dropped exactly as in the source. -/
def parseFor (exp : Str) : Option ForParseResult :=
  match forAliasSplit exp with
  | none => none
  | some (g1, g2) =>
    let forStr := jsTrim g2
    let alias0 := stripParens (jsTrim g1)
    match forIteratorSearch alias0 with
    | some (i, it1, it2) =>
      some { forStr := forStr
             aliasStr := jsTrim (alias0.take i)
             iterator1 := some (jsTrim it1)
             iterator2 := (match it2 with
               | some g2v => if g2v.isEmpty then none else some (jsTrim g2v)
               | none => none) }
    | none => some { forStr := forStr, aliasStr := alias0, iterator1 := none, iterator2 := none }

/-- C7: the three loop-expression shapes parse to exactly the aliases the
spec gives: `"item in list"`, `"(item, idx) in list"` (index alias as
`iterator1`), and `"(val, key, idx) in obj"` (key alias as `iterator1`,
index alias as `iterator2`). -/
theorem claim_C7_parseFor :
    parseFor (strL "item in list") =
        some ⟨strL "list", strL "item", none, none⟩ ∧
      parseFor (strL "(item, idx) in list") =
        some ⟨strL "list", strL "item", some (strL "idx"), none⟩ ∧
      parseFor (strL "(val, key, idx) in obj") =
        some ⟨strL "obj", strL "val", some (strL "key"), some (strL "idx")⟩ := by
  decide

/-!
## `parseText` — `src/src/compiler/parser/text-parser.js`

The tag regex (default `/\x7b\x7b((?:.|\r?\n)+?)\x7d\x7d/g`, or the same
shape built from custom delimiters) is modelled by an earliest-match search:
the first open delimiter from which a shortest non-empty content is followed
by the close delimiter.
-/

/-- Finds the lazy content: the shortest non-empty prefix after which the
close delimiter follows; returns the content and the remainder after the
close delimiter. -/
def splitAtCloseGo (closeD : Str) : Str → Option (Str × Str)
  | [] => none
  | c :: rest =>
    if closeD.isPrefixOf rest then some ([c], rest.drop closeD.length)
    else (splitAtCloseGo closeD rest).map (fun p => (c :: p.1, p.2))

/-- The first match of the interpolation regex in `s`: its start index, its
content group, and the total match length. -/
def findTagFrom (openD closeD : Str) : Str → Option (Nat × Str × Nat)
  | [] => none
  | c :: rest =>
    match (if openD.isPrefixOf (c :: rest) then
        splitAtCloseGo closeD ((c :: rest).drop openD.length)
      else none) with
    | some (content, _) =>
      some (0, content, openD.length + content.length + closeD.length)
    | none => (findTagFrom openD closeD rest).map (fun p => (p.1 + 1, p.2))

/-!
### `parseFilters`

Modelled from the spec: `filter-parser.js` is imported by text-parser.js but
is not under `src/`.  The spec describes the value grammar as "a
pipe-separated chain of transform calls": the expression splits at `|`
characters that are not part of `||`, not escaped-quoted, and not inside
paren/bracket/brace nesting; each filter name wraps the expression as
`_f("name")(expr)`, a filter written as a call getting the expression
inserted as its first argument.  A pipe-free expression is returned
unchanged (the only case the claims exercise).
-/

/-- Index of the first top-level single `|`, scanning with quote and
nesting state (`prev` is the previous character). -/
def findPipeGo : Str → Option Char → Bool → Bool → Bool → Nat → Nat → Nat →
    Nat → Option Nat
  | [], _, _, _, _, _, _, _, _ => none
  | c :: rest, prev, inS, inD, inT, p, sq, cu, idx =>
    if inS then
      findPipeGo rest (some c) (!(c == '\x27' && prev != some '\\')) inD inT
        p sq cu (idx + 1)
    else if inD then
      findPipeGo rest (some c) inS (!(c == '"' && prev != some '\\')) inT
        p sq cu (idx + 1)
    else if inT then
      findPipeGo rest (some c) inS inD (!(c == '\x60' && prev != some '\\'))
        p sq cu (idx + 1)
    else if c == '|' && rest.head? != some '|' && prev != some '|' &&
        p == 0 && sq == 0 && cu == 0 then
      some idx
    else
      findPipeGo rest (some c) (c == '\x27') (c == '"') (c == '\x60')
        (if c == '(' then p + 1 else if c == ')' then p - 1 else p)
        (if c == '[' then sq + 1 else if c == ']' then sq - 1 else sq)
        (if c == '\x7b' then cu + 1 else if c == '\x7d' then cu - 1 else cu)
        (idx + 1)

def findPipe (s : Str) : Option Nat :=
  findPipeGo s none false false false 0 0 0 0

def filterSegmentsGo : Nat → Str → List Str
  | 0, s => [s]
  | fuel + 1, s =>
    match findPipe s with
    | none => [s]
    | some i => s.take i :: filterSegmentsGo fuel (s.drop (i + 1))

def wrapFilter (exp filter : Str) : Str :=
  match (filter.findIdx? (· == '(')) with
  | none => strL "_f(\"" ++ filter ++ strL "\")(" ++ exp ++ [')']
  | some i =>
    let name := filter.take i
    let args := filter.drop (i + 1)
    strL "_f(\"" ++ name ++ strL "\")(" ++ exp ++
      (if args == [')'] then args else ',' :: args)

def parseFilters (exp : Str) : Str :=
  match filterSegmentsGo exp.length exp with
  | [] => exp
  | e :: fs => fs.foldl (fun acc f => wrapFilter acc (jsTrim f)) (jsTrim e)

/-- A `rawTokens` entry: a plain string, or the `\x7b '@binding': exp \x7d`
record. -/
inductive TextTok where
  | str (s : Str)
  | binding (exp : Str)
deriving DecidableEq, Repr

structure TextParseResult where
  expression : Str
  tokens : List TextTok
deriving DecidableEq, Repr

/-- The `while ((match = tagRE.exec(text)))` loop of `parseText`: for each
match, the preceding literal (when non-empty) is pushed as a
`JSON.stringify`-ed token plus raw string, the trimmed content goes through
`parseFilters` and is pushed as `_s(exp)` plus a binding raw token; the
trailing literal is pushed after the loop.  Each match consumes at least
one character, so `length + 1` rounds of fuel always suffice. -/
def parseTextGo (openD closeD : Str) : Nat → Str → List Str × List TextTok
  | 0, _ => ([], [])
  | fuel + 1, s =>
    match findTagFrom openD closeD s with
    | none =>
      if s.isEmpty then ([], []) else ([jsonStringify s], [.str s])
    | some (i, content, len) =>
      let pre := s.take i
      let exp := parseFilters (jsTrim content)
      let hd : List Str × List TextTok :=
        if 0 < i then ([jsonStringify pre], [.str pre]) else ([], [])
      let rest := parseTextGo openD closeD fuel (s.drop (i + len))
      (hd.1 ++ (strL "_s(" ++ exp ++ [')']) :: rest.1,
        hd.2 ++ .binding exp :: rest.2)

/-- `parseText` of text-parser.js: `none` when the tag regex does not match
(pure text); otherwise the token expressions joined with `+` and the raw
token list. -/
def parseText (text : Str) (delimiters : Option (Str × Str)) :
    Option TextParseResult :=
  let openD := match delimiters with
    | some d => d.1
    | none => strL "\x7b\x7b"
  let closeD := match delimiters with
    | some d => d.2
    | none => strL "\x7d\x7d"
  match findTagFrom openD closeD text with
  | none => none
  | some _ =>
    let r := parseTextGo openD closeD (text.length + 1) text
    some ⟨List.intercalate ['+'] r.1, r.2⟩

/-- C8: `"abc\x7b\x7bfoo\x7d\x7ddef"` with the default delimiters parses to
the expression `"abc"+_s(foo)+"def"` — the literal `"abc"`, the rendered
value of `foo`, and the literal `"def"` concatenated in that order — and the
raw token list has exactly those three parts in that order. -/
theorem claim_C8_parseText :
    parseText (strL "abc\x7b\x7bfoo\x7d\x7ddef") none =
      some ⟨strL "\"abc\"+_s(foo)+\"def\"",
        [.str (strL "abc"), .binding (strL "foo"), .str (strL "def")]⟩ := by
  decide

/-!
## Event-handler code generation — `src/unnamed/part_007` (compiler events
module: `genHandler`, `genKeyFilter`, `genFilterCode`)

Generated JavaScript text is built as `Str`.  The handler-value
classification regexes (`simplePathRE`, `fnExpRE`, `fnInvokeRE`) are
embedded character by character.
-/

def identStart (c : Char) : Bool := c.isAlpha || c == '_' || c == '$'

def identChar (c : Char) : Bool := c.isAlphanum || c == '_' || c == '$'

/-- The repeated segment of `simplePathRE`: `.ident`, `['...']`, `["..."]`,
`[digits]` or `[ident]`, ending exactly at the end of the string. -/
def simplePathSegsGo : Nat → Str → Bool
  | _, [] => true
  | 0, _ => false
  | fuel + 1, s =>
    match s with
    | '.' :: rest =>
      (match rest with
        | c :: r2 => identStart c && simplePathSegsGo fuel (r2.dropWhile identChar)
        | [] => false)
    | '[' :: rest =>
      (match rest with
        | '\x27' :: r2 =>
          let content := r2.takeWhile (· != '\x27')
          (match r2.drop content.length with
            | '\x27' :: ']' :: r3 => simplePathSegsGo fuel r3
            | _ => false)
        | '"' :: r2 =>
          let content := r2.takeWhile (· != '"')
          (match r2.drop content.length with
            | '"' :: ']' :: r3 => simplePathSegsGo fuel r3
            | _ => false)
        | c :: r2 =>
          if c.isDigit then
            (match r2.dropWhile (·.isDigit) with
              | ']' :: r3 => simplePathSegsGo fuel r3
              | _ => false)
          else if identStart c then
            (match r2.dropWhile identChar with
              | ']' :: r3 => simplePathSegsGo fuel r3
              | _ => false)
          else false
        | [] => false)
    | _ => false

/-- `simplePathRE.test(value)`. -/
def simplePathTest (v : Str) : Bool :=
  match v with
  | c :: rest => identStart c && simplePathSegsGo (v.length + 1) (rest.dropWhile identChar)
  | [] => false

def arrowAfterWS (r : Str) : Bool :=
  match r.dropWhile isWS with
  | '=' :: '>' :: _ => true
  | _ => false

/-- `fnExpRE.test(value)`: an arrow function head (`word =>` or
`( ... ) =>`) or a `function` keyword head. -/
def fnExpTest (v : Str) : Bool :=
  let alt1 :=
    match v with
    | '(' :: rest =>
      let content := rest.takeWhile (· != ')')
      (match rest.drop content.length with
        | ')' :: r2 => arrowAfterWS r2
        | _ => false)
    | _ =>
      let w := v.takeWhile identChar
      !w.isEmpty && arrowAfterWS (v.drop w.length)
  let alt2 :=
    if (strL "function").isPrefixOf v then
      let r := v.drop 8
      if (r.takeWhile isWS).isEmpty then
        (match r with
          | '(' :: _ => true
          | _ => false)
      else
        let r2 := r.dropWhile isWS
        let name := r2.takeWhile identChar
        if name.isEmpty then
          (match r2 with
            | '(' :: _ => true
            | _ => false)
        else
          (match (r2.drop name.length).dropWhile isWS with
            | '(' :: _ => true
            | _ => false)
    else false
  alt1 || alt2

/-- `value.replace(fnInvokeRE, '')`: removes the first `(...);*` group that
reaches the end of the string (so `doSomething($event)` becomes
`doSomething`). -/
def stripFnInvoke : Str → Str
  | [] => []
  | '(' :: rest =>
    let content := rest.takeWhile (· != ')')
    (match rest.drop content.length with
      | ')' :: r2 => if r2.all (· == ';') then [] else '(' :: stripFnInvoke rest
      | _ => '(' :: stripFnInvoke rest)
  | c :: rest => c :: stripFnInvoke rest

/-- `Array.prototype.join(sep)`. -/
def joinSep (sep : Str) : List Str → Str
  | [] => []
  | [x] => x
  | x :: xs => x ++ sep ++ joinSep sep xs

/-- The JSON-able values of the `keyCodes` / `keyNames` alias tables. -/
inductive JsonVal where
  | num (n : Nat)
  | nums (l : List Nat)
  | str (s : Str)
  | strs (l : List Str)
deriving DecidableEq, Repr

def jsonOfVal : JsonVal → Str
  | .num n => strL (toString n)
  | .nums l => '[' :: joinSep [','] (l.map (fun n => strL (toString n))) ++ [']']
  | .str s => jsonStringify s
  | .strs l => '[' :: joinSep [','] (l.map jsonStringify) ++ [']']

def jsonOfLookup : Option JsonVal → Str
  | some v => jsonOfVal v
  | none => strL "undefined"

/-- The `keyCodes` alias table. -/
def keyCodes (k : Str) : Option JsonVal :=
  if k == strL "esc" then some (.num 27)
  else if k == strL "tab" then some (.num 9)
  else if k == strL "enter" then some (.num 13)
  else if k == strL "space" then some (.num 32)
  else if k == strL "up" then some (.num 38)
  else if k == strL "left" then some (.num 37)
  else if k == strL "right" then some (.num 39)
  else if k == strL "down" then some (.num 40)
  else if k == strL "delete" then some (.nums [8, 46])
  else none

/-- The `keyNames` alias table. -/
def keyNames (k : Str) : Option JsonVal :=
  if k == strL "esc" then some (.strs [strL "Esc", strL "Escape"])
  else if k == strL "tab" then some (.str (strL "Tab"))
  else if k == strL "enter" then some (.str (strL "Enter"))
  else if k == strL "space" then some (.strs [strL " ", strL "Spacebar"])
  else if k == strL "up" then some (.strs [strL "Up", strL "ArrowUp"])
  else if k == strL "left" then some (.strs [strL "Left", strL "ArrowLeft"])
  else if k == strL "right" then some (.strs [strL "Right", strL "ArrowRight"])
  else if k == strL "down" then some (.strs [strL "Down", strL "ArrowDown"])
  else if k == strL "delete" then
    some (.strs [strL "Backspace", strL "Delete", strL "Del"])
  else none

def genGuard (condition : Str) : Str :=
  strL "if(" ++ condition ++ strL ")return null;"

/-- The `modifierCode` table. -/
def modifierCode (k : Str) : Option Str :=
  if k == strL "stop" then some (strL "$event.stopPropagation();")
  else if k == strL "prevent" then some (strL "$event.preventDefault();")
  else if k == strL "self" then
    some (genGuard (strL "$event.target !== $event.currentTarget"))
  else if k == strL "ctrl" then some (genGuard (strL "!$event.ctrlKey"))
  else if k == strL "shift" then some (genGuard (strL "!$event.shiftKey"))
  else if k == strL "alt" then some (genGuard (strL "!$event.altKey"))
  else if k == strL "meta" then some (genGuard (strL "!$event.metaKey"))
  else if k == strL "left" then
    some (genGuard (strL "\x27button\x27 in $event && $event.button !== 0"))
  else if k == strL "middle" then
    some (genGuard (strL "\x27button\x27 in $event && $event.button !== 1"))
  else if k == strL "right" then
    some (genGuard (strL "\x27button\x27 in $event && $event.button !== 2"))
  else none

/-- `parseInt(key, 10)` restricted to what `genFilterCode` uses: leading
whitespace, an optional sign, then a run of decimal digits. -/
def parseIntJS (s : Str) : Option Int :=
  let digitsVal : Str → Option Nat := fun ds =>
    let d := ds.takeWhile (·.isDigit)
    if d.isEmpty then none
    else some (d.foldl (fun a c => a * 10 + (c.toNat - 48)) 0)
  match s.dropWhile isWS with
  | '-' :: ds => (digitsVal ds).map (fun n => -(n : Int))
  | '+' :: ds => (digitsVal ds).map (fun n => (n : Int))
  | ds => (digitsVal ds).map (fun n => (n : Int))

/-- `genFilterCode`: a numeric key modifier compares `keyCode` directly,
anything else goes through the `_k` runtime check with the alias tables. -/
def genFilterCode (key : Str) : Str :=
  match parseIntJS key with
  | some v =>
    if v != 0 then strL "$event.keyCode!==" ++ strL (toString v)
    else strL "_k($event.keyCode," ++ jsonStringify key ++ [','] ++
      jsonOfLookup (keyCodes key) ++ strL ",$event.key," ++
      jsonOfLookup (keyNames key) ++ [')']
  | none =>
    strL "_k($event.keyCode," ++ jsonStringify key ++ [','] ++
      jsonOfLookup (keyCodes key) ++ strL ",$event.key," ++
      jsonOfLookup (keyNames key) ++ [')']

def genKeyFilter (keys : List Str) : Str :=
  strL "if(!$event.type.indexOf(\x27key\x27)&&" ++
    joinSep (strL "&&") (keys.map genFilterCode) ++ strL ")return null;"

structure EventHandler where
  value : Str
  modifiers : Option (List Str)
deriving DecidableEq, Repr

/-- The `exact` modifier guard: the system modifier keys not listed on the
handler must all be up. -/
def exactGuard (mods : List Str) : Str :=
  genGuard (joinSep (strL "||")
    (((["ctrl", "shift", "alt", "meta"].map strL).filter
        (fun m => !mods.contains m)).map
      (fun m => strL "$event." ++ m ++ strL "Key")))

/-- The modifier loop of `genHandler`: accumulates `genModifierCode` and the
`keys` list in insertion order (a modifier in both tables, such as `left`,
goes to both). -/
def modLoop (mods : List Str) : Str × List Str :=
  mods.foldl
    (fun acc key =>
      match modifierCode key with
      | some snippet =>
        (acc.1 ++ snippet,
          if (keyCodes key).isSome then acc.2 ++ [key] else acc.2)
      | none =>
        if key == strL "exact" then (acc.1 ++ exactGuard mods, acc.2)
        else (acc.1, acc.2 ++ [key]))
    ([], [])

/-- The handler-code tail of `genHandler` (a method path is applied, a
function expression is parenthesised and applied, an invocation is
returned, an inline statement is inlined). -/
def handlerBody (value : Str) : Str :=
  if simplePathTest value then
    strL "return " ++ value ++ strL ".apply(null, arguments)"
  else if fnExpTest value then
    strL "return (" ++ value ++ strL ").apply(null, arguments)"
  else if simplePathTest (stripFnInvoke value) then strL "return " ++ value
  else value

/-- `genHandler` on one handler record. -/
def genHandlerOne (handler : EventHandler) : Str :=
  match handler.modifiers with
  | none =>
    if simplePathTest handler.value || fnExpTest handler.value then
      handler.value
    else
      strL "function($event)\x7b" ++
        (if simplePathTest (stripFnInvoke handler.value) then
          strL "return " ++ handler.value
        else handler.value) ++ strL "\x7d"
  | some mods =>
    let r := modLoop mods
    let code := (if !r.2.isEmpty then genKeyFilter r.2 else []) ++ r.1
    strL "function($event)\x7b" ++ code ++ handlerBody handler.value ++
      strL "\x7d"

/-- `genHandler` including the absent-handler and handler-array cases. -/
def genHandler : Option (List EventHandler ⊕ EventHandler) → Str
  | none => strL "function()\x7b\x7d"
  | some (.inr h) => genHandlerOne h
  | some (.inl hs) => '[' :: joinSep [','] (hs.map genHandlerOne) ++ [']']

/-- C5: for a handler with a key modifier `k` (any modifier outside the
generic-modifier table and distinct from `exact`) together with `stop` — in
either order — the generated code places the key-filter guard strictly
before the stop-propagation statement, and the key filter is exactly
`if(!$event.type.indexOf('key')&&<filter>)return null;`: a guarded early
return with no side effects, so when the key matches, control falls through
the filter and `$event.stopPropagation()` executes before the handler
body. -/
theorem claim_C5_key_filter_before_stop (v k : Str)
    (hm : modifierCode k = none) (he : (k == strL "exact") = false) :
    genHandlerOne ⟨v, some [k, strL "stop"]⟩ =
        strL "function($event)\x7b" ++ genKeyFilter [k] ++
          strL "$event.stopPropagation();" ++ handlerBody v ++ strL "\x7d" ∧
      genHandlerOne ⟨v, some [strL "stop", k]⟩ =
        strL "function($event)\x7b" ++ genKeyFilter [k] ++
          strL "$event.stopPropagation();" ++ handlerBody v ++ strL "\x7d" ∧
      genKeyFilter [k] =
        strL "if(!$event.type.indexOf(\x27key\x27)&&" ++ genFilterCode k ++
          strL ")return null;" := by
  have he' : k ≠ strL "exact" := by simpa using he
  have hstop : modifierCode (strL "stop") =
      some (strL "$event.stopPropagation();") := by decide
  have hkcs : keyCodes (strL "stop") = none := by decide
  have h1 : modLoop [k, strL "stop"] =
      (strL "$event.stopPropagation();", [k]) := by
    simp [modLoop, hm, he', hstop, hkcs]
  have h2 : modLoop [strL "stop", k] =
      (strL "$event.stopPropagation();", [k]) := by
    simp [modLoop, hm, he', hstop, hkcs]
  refine ⟨?_, ?_, ?_⟩
  · simp [genHandlerOne, h1, List.append_assoc]
  · simp [genHandlerOne, h2, List.append_assoc]
  · simp [genKeyFilter, joinSep]

theorem claim_C5_witness :
    modifierCode (strL "enter") = none ∧
      (strL "enter" == strL "exact") = false ∧
      genHandlerOne ⟨strL "foo", some [strL "enter", strL "stop"]⟩ =
        strL "function($event)\x7b" ++ genKeyFilter [strL "enter"] ++
          strL "$event.stopPropagation();" ++ handlerBody (strL "foo") ++
          strL "\x7d" :=
  ⟨by decide, by decide,
    (claim_C5_key_filter_before_stop (strL "foo") (strL "enter")
      (by decide) (by decide)).1⟩

/-!
## if/else-if/else chain folding — `src/src/compiler/parser/index.js`
(`processIf` lines 883-911, `processIfConditions` lines 917-934,
`findPrevElement` lines 944-960, `addIfCondition` lines 962-967, and the
attachment step of `closeElement` lines 191-218)

The model processes one sibling sequence the way the builder does: each
element has already been through `processIf` (so it is either an owner of a
`v-if` expression, a `v-else`/`v-else-if` carrier, or plain), and
`closeElement` either pushes it into `children` or folds it into the
previous if-owner's `ifConditions`.  The JavaScript `children` array is
pushed/popped at its end, embedded here as a list holding the newest node
first (`push` = cons, `children.pop()` = tail, `findPrevElement`'s
backwards scan = `dropWhile` at the head); the final list is reversed back
to template order.
-/

inductive SibItem where
  | plainEl
  | ifEl (exp : Str)
  | elseEl (elseifExp : Option Str)
  | textItem (s : Str)
deriving DecidableEq, Repr

/-- An `ifConditions` entry: `exp` is absent for a bare `v-else`, `block`
records the identity (sibling index) of the branch element. -/
structure IfEntry where
  exp : Option Str
  block : Nat
deriving DecidableEq, Repr

inductive BuiltNode where
  | elemN (idx : Nat) (ifExp : Option Str) (conds : Option (List IfEntry))
  | textNd (s : Str)
deriving DecidableEq, Repr

def isElemNode : BuiltNode → Bool
  | .elemN _ _ _ => true
  | .textNd _ => false

/-- One sibling at a time, newest child first.  `processIf` gives an if
owner its own first condition entry; `processIfConditions` pops trailing
non-element children, then folds a `v-else(-if)` element into the previous
element when that element owns a truthy `if` (`addIfCondition` pushes
unconditionally) and otherwise drops it with only a diagnostic. -/
def buildSiblingsGo : List SibItem → Nat → List BuiltNode → List BuiltNode
  | [], _, rch => rch.reverse
  | item :: rest, idx, rch =>
    match item with
    | .textItem s => buildSiblingsGo rest (idx + 1) (.textNd s :: rch)
    | .plainEl => buildSiblingsGo rest (idx + 1) (.elemN idx none none :: rch)
    | .ifEl e =>
      buildSiblingsGo rest (idx + 1)
        (.elemN idx (some e) (some [⟨some e, idx⟩]) :: rch)
    | .elseEl e =>
      let dch := rch.dropWhile (fun n => !isElemNode n)
      match dch with
      | .elemN i (some e0) conds :: restCh =>
        buildSiblingsGo rest (idx + 1)
          (.elemN i (some e0) (some ((conds.getD []) ++ [⟨e, idx⟩])) :: restCh)
      | _ => buildSiblingsGo rest (idx + 1) dch

def buildSiblings (items : List SibItem) : List BuiltNode :=
  buildSiblingsGo items 0 []

/-- The invariant the claim asserts of one `ifConditions` list: non-empty,
at most one condition-less entry, and a condition-less entry only in last
position — equivalently, every entry except the last carries a condition. -/
def condsOkFull (l : List IfEntry) : Bool :=
  !l.isEmpty && l.dropLast.all (fun e => e.exp.isSome)

/-- The part of the invariant that holds unconditionally: non-empty with
the first entry (the owner's own `v-if`) carrying a condition. -/
def condsOkBase (l : List IfEntry) : Bool :=
  match l with
  | [] => false
  | e :: _ => e.exp.isSome

def nodeCondsOk (check : List IfEntry → Bool) : BuiltNode → Bool
  | .elemN _ _ (some l) => check l
  | _ => true

def allCondsOk (check : List IfEntry → Bool) (ns : List BuiltNode) : Bool :=
  ns.all (nodeCondsOk check)

/-- Well-chained sibling sequences: no `v-else`/`v-else-if` attaches to a
chain that already ended in a condition-less branch.  (A branch with no
owner at all is dropped by the builder and is therefore harmless.)
State 0: no attachable chain; 1: open chain, all entries conditioned;
2: chain closed by a condition-less entry. -/
def wfChainGo : Nat → List SibItem → Bool
  | _, [] => true
  | st, item :: rest =>
    match item with
    | .textItem _ => wfChainGo st rest
    | .plainEl => wfChainGo 0 rest
    | .ifEl _ => wfChainGo 1 rest
    | .elseEl e =>
      if st = 0 then wfChainGo 0 rest
      else if st = 1 then wfChainGo (if e.isNone then 2 else 1) rest
      else false

def wfChains (items : List SibItem) : Bool := wfChainGo 0 items

/-- Every if-owner produced by the builder keeps `ifExp` and `ifConditions`
in step: conditions exist exactly on owners and start with the owner's own
conditioned entry. -/
def nodeShapeOk : BuiltNode → Bool
  | .elemN _ (some _) (some l) => condsOkBase l
  | .elemN _ (some _) none => false
  | .elemN _ none (some _) => false
  | .elemN _ none none => true
  | .textNd _ => true

theorem all_dropWhile {α : Type} (p q : α → Bool) (l : List α)
    (h : l.all q = true) : (l.dropWhile p).all q = true := by
  induction l with
  | nil => simp
  | cons x xs ih =>
    simp only [List.all_cons, Bool.and_eq_true] at h
    rw [List.dropWhile_cons]
    split
    · exact ih h.2
    · simp [List.all_cons, h.1, h.2]

theorem dropWhile_idem {α : Type} (p : α → Bool) (l : List α) :
    (l.dropWhile p).dropWhile p = l.dropWhile p := by
  induction l with
  | nil => simp
  | cons x xs ih =>
    rw [List.dropWhile_cons]
    split
    next h => exact ih
    next h => rw [List.dropWhile_cons, if_neg h]

theorem nodeShapeOk_condsOk (n : BuiltNode) (h : nodeShapeOk n = true) :
    nodeCondsOk condsOkBase n = true := by
  cases n with
  | textNd s => rfl
  | elemN i ifExp conds =>
    cases ifExp <;> cases conds <;> simp_all [nodeShapeOk, nodeCondsOk]

theorem buildGo_shape : (items : List SibItem) → (idx : Nat) →
    (rch : List BuiltNode) → rch.all nodeShapeOk = true →
      (buildSiblingsGo items idx rch).all nodeShapeOk = true
  | [], _, rch, h => by simpa [buildSiblingsGo] using h
  | .textItem s :: rest, idx, rch, h => by
    simp only [buildSiblingsGo]
    exact buildGo_shape rest _ _ (by simp [nodeShapeOk, h])
  | .plainEl :: rest, idx, rch, h => by
    simp only [buildSiblingsGo]
    exact buildGo_shape rest _ _ (by simp [nodeShapeOk, h])
  | .ifEl e :: rest, idx, rch, h => by
    simp only [buildSiblingsGo]
    exact buildGo_shape rest _ _ (by simp [nodeShapeOk, condsOkBase, h])
  | .elseEl e :: rest, idx, rch, h => by
    simp only [buildSiblingsGo]
    have hd : (rch.dropWhile (fun n => !isElemNode n)).all nodeShapeOk = true :=
      all_dropWhile _ _ _ h
    cases hdch : rch.dropWhile (fun n => !isElemNode n) with
    | nil =>
      rw [hdch] at hd
      exact buildGo_shape rest _ _ hd
    | cons hd0 restCh =>
      rw [hdch] at hd
      simp only [List.all_cons, Bool.and_eq_true] at hd
      cases hd0 with
      | textNd s => exact buildGo_shape rest _ _ (by simp [nodeShapeOk, hd.2])
      | elemN i ifExp conds =>
        cases ifExp with
        | none => exact buildGo_shape rest _ _ (by simp [hd.1, hd.2])
        | some e0 =>
          cases conds with
          | none => exact absurd hd.1 (by simp [nodeShapeOk])
          | some l =>
            refine buildGo_shape rest _ _ ?_
            have hbase : condsOkBase l = true := hd.1
            simp only [List.all_cons, Bool.and_eq_true]
            refine ⟨?_, hd.2⟩
            cases l with
            | nil => exact absurd hbase (by simp [condsOkBase])
            | cons e1 l1 =>
              simp only [condsOkBase] at hbase
              simp [nodeShapeOk, condsOkBase, Option.getD, hbase]

/-- The invariant of the builder state while consuming a well-chained
sibling sequence: every `ifConditions` list built so far is fully
well-formed, and the head of the children list (after popping trailing
non-elements) matches the chain state: state 0 has no attachable previous
if-owner, state 1 an owner whose entries all carry conditions, state 2 an
owner already closed by a condition-less entry. -/
def stInv (st : Nat) (rch : List BuiltNode) : Bool :=
  allCondsOk condsOkFull rch &&
    (if st = 0 then
      (match rch.dropWhile (fun n => !isElemNode n) with
        | [] => true
        | .elemN _ none _ :: _ => true
        | _ => false)
    else if st = 1 then
      (match rch.dropWhile (fun n => !isElemNode n) with
        | .elemN _ (some _) (some l) :: _ =>
          !l.isEmpty && l.all (fun en => en.exp.isSome)
        | _ => false)
    else if st = 2 then
      (match rch.dropWhile (fun n => !isElemNode n) with
        | .elemN _ (some _) (some l) :: _ => condsOkFull l
        | _ => false)
    else false)

theorem buildGo_full : (items : List SibItem) → (idx : Nat) →
    (rch : List BuiltNode) → (st : Nat) → stInv st rch = true →
      wfChainGo st items = true →
      allCondsOk condsOkFull (buildSiblingsGo items idx rch) = true
  | [], _, rch, st, hinv, _ => by
    unfold stInv at hinv
    rw [Bool.and_eq_true] at hinv
    simp only [buildSiblingsGo, allCondsOk, List.all_reverse]
    exact hinv.1
  | .textItem s :: rest, idx, rch, st, hinv, hwf => by
    unfold stInv at hinv
    rw [Bool.and_eq_true] at hinv
    simp only [buildSiblingsGo]
    refine buildGo_full rest _ _ st ?_ hwf
    unfold stInv
    rw [Bool.and_eq_true]
    constructor
    · simp only [allCondsOk, List.all_cons, Bool.and_eq_true]
      exact ⟨rfl, hinv.1⟩
    · have hdw : (BuiltNode.textNd s :: rch).dropWhile (fun n => !isElemNode n) =
          rch.dropWhile (fun n => !isElemNode n) := by
        simp [List.dropWhile_cons, isElemNode]
      rw [hdw]
      exact hinv.2
  | .plainEl :: rest, idx, rch, st, hinv, hwf => by
    unfold stInv at hinv
    rw [Bool.and_eq_true] at hinv
    simp only [buildSiblingsGo]
    refine buildGo_full rest _ _ 0 ?_ hwf
    unfold stInv
    rw [Bool.and_eq_true]
    constructor
    · simp only [allCondsOk, List.all_cons, Bool.and_eq_true]
      exact ⟨rfl, hinv.1⟩
    · simp [List.dropWhile_cons, isElemNode]
  | .ifEl e :: rest, idx, rch, st, hinv, hwf => by
    unfold stInv at hinv
    rw [Bool.and_eq_true] at hinv
    simp only [buildSiblingsGo]
    refine buildGo_full rest _ _ 1 ?_ hwf
    unfold stInv
    rw [Bool.and_eq_true]
    constructor
    · simp only [allCondsOk, List.all_cons, Bool.and_eq_true]
      exact ⟨by simp [nodeCondsOk, condsOkFull], hinv.1⟩
    · simp [List.dropWhile_cons, isElemNode]
  | .elseEl e :: rest, idx, rch, st, hinv, hwf => by
    unfold stInv at hinv
    rw [Bool.and_eq_true] at hinv
    obtain ⟨h1, h2⟩ := hinv
    simp only [buildSiblingsGo]
    by_cases hst0 : st = 0
    · subst hst0
      rw [if_pos rfl] at h2
      have hwf0 : wfChainGo 0 rest = true := hwf
      have hall : (rch.dropWhile (fun n => !isElemNode n)).all
          (nodeCondsOk condsOkFull) = true := all_dropWhile _ _ _ h1
      cases hdch : rch.dropWhile (fun n => !isElemNode n) with
      | nil =>
        refine buildGo_full rest _ _ 0 ?_ hwf0
        unfold stInv
        simp [allCondsOk]
      | cons hd0 tl =>
        rw [hdch] at h2 hall
        cases hd0 with
        | textNd s => exact absurd h2 (by simp)
        | elemN i ifExp conds =>
          cases ifExp with
          | some e0 => exact absurd h2 (by simp)
          | none =>
            refine buildGo_full rest _ _ 0 ?_ hwf0
            unfold stInv
            rw [Bool.and_eq_true]
            refine ⟨hall, ?_⟩
            rw [if_pos rfl]
            have : (BuiltNode.elemN i none conds :: tl).dropWhile
                (fun n => !isElemNode n) = BuiltNode.elemN i none conds :: tl := by
              simp [List.dropWhile_cons, isElemNode]
            rw [this]
    · by_cases hst1 : st = 1
      · subst hst1
        rw [if_neg one_ne_zero, if_pos rfl] at h2
        have hwf1 : wfChainGo (if e.isNone then 2 else 1) rest = true := hwf
        have hall : (rch.dropWhile (fun n => !isElemNode n)).all
            (nodeCondsOk condsOkFull) = true := all_dropWhile _ _ _ h1
        cases hdch : rch.dropWhile (fun n => !isElemNode n) with
        | nil => exact absurd (hdch ▸ h2) (by simp)
        | cons hd0 tl =>
          rw [hdch] at h2 hall
          simp only [List.all_cons, Bool.and_eq_true] at hall
          cases hd0 with
          | textNd s => exact absurd h2 (by simp)
          | elemN i ifExp conds =>
            cases ifExp with
            | none => exact absurd h2 (by simp)
            | some e0 =>
              cases conds with
              | none => exact absurd h2 (by simp)
              | some l =>
                rw [Bool.and_eq_true] at h2
                have hfull : condsOkFull (l ++ [⟨e, idx⟩]) = true := by
                  simp only [condsOkFull, List.dropLast_concat,
                    List.concat_eq_append]
                  simp [List.dropLast_concat, h2.2]
                refine buildGo_full rest _ _ (if e.isNone then 2 else 1) ?_ hwf1
                unfold stInv
                rw [Bool.and_eq_true]
                constructor
                · simp only [allCondsOk, List.all_cons, Bool.and_eq_true,
                    Option.getD]
                  exact ⟨hfull, hall.2⟩
                · have hthis : (BuiltNode.elemN i (some e0)
                      (some ((some l).getD [] ++ [⟨e, idx⟩])) :: tl).dropWhile
                        (fun n => !isElemNode n) =
                      BuiltNode.elemN i (some e0)
                        (some ((some l).getD [] ++ [⟨e, idx⟩])) :: tl := by
                    simp [List.dropWhile_cons, isElemNode]
                  rw [hthis]
                  cases e with
                  | none => simp [hfull]
                  | some v => simp [h2.2]
      · have hfalse : wfChainGo st (.elseEl e :: rest) = false := by
          show (if st = 0 then _ else if st = 1 then _ else false) = false
          rw [if_neg hst0, if_neg hst1]
        exact absurd (hfalse ▸ hwf) (by simp)

/-- C2, counterexample: processing the siblings
`<p v-if="a"/><p v-else/><p v-else-if="b"/>` folds all three into one
owner, whose `ifConditions` list is `[(a), (none), (b)]` — three entries
with the condition-less else entry in the middle, not last.
`processIfConditions` finds the previous element (still the `v-if` owner,
since else branches are not pushed into `children`) and `addIfCondition`
appends unconditionally, so the claimed invariant is violated with no
error. -/
theorem claim_C2_counterexample :
    buildSiblings [.ifEl (strL "a"), .elseEl none, .elseEl (some (strL "b"))] =
        [.elemN 0 (some (strL "a"))
          (some [⟨some (strL "a"), 0⟩, ⟨none, 1⟩, ⟨some (strL "b"), 2⟩])] ∧
      condsOkFull
        [⟨some (strL "a"), 0⟩, ⟨none, 1⟩, ⟨some (strL "b"), 2⟩] = false := by
  decide

/-- C2 (amended): for every sibling sequence the builder processes, every
`ifConditions` list present on an output node is non-empty and its first
entry (the owner's own `v-if`) carries a condition; and when the sequence
is well-chained — no `v-else`/`v-else-if` attaches to a chain already
closed by a condition-less branch — every `ifConditions` list additionally
has at most one condition-less entry, in last position.  The builder itself
never rejects a duplicate `v-else` or a `v-else-if` after `v-else`; such
sequences produce an out-of-order or duplicate condition-less entry (see
the counterexample). -/
theorem claim_C2_ifConditions (items : List SibItem) :
    allCondsOk condsOkBase (buildSiblings items) = true ∧
      (wfChains items = true →
        allCondsOk condsOkFull (buildSiblings items) = true) := by
  constructor
  · have h := buildGo_shape items 0 [] rfl
    rw [allCondsOk, List.all_eq_true]
    rw [List.all_eq_true] at h
    exact fun n hn => nodeShapeOk_condsOk n (h n hn)
  · intro hwf
    refine buildGo_full items 0 [] 0 ?_ hwf
    unfold stInv
    simp [allCondsOk]

def demoItemsC2 : List SibItem :=
  [.ifEl (strL "a"), .textItem (strL " "), .elseEl (some (strL "b")),
    .elseEl none]

theorem claim_C2_witness :
    allCondsOk condsOkBase (buildSiblings demoItemsC2) = true ∧
      wfChains demoItemsC2 = true ∧
      allCondsOk condsOkFull (buildSiblings demoItemsC2) = true :=
  ⟨(claim_C2_ifConditions demoItemsC2).1, by decide,
    (claim_C2_ifConditions demoItemsC2).2 (by decide)⟩

/-!
## HTML tokenizer — `src/unnamed/part_009` (the ported simplehtmlparser)

The regex recognizers are embedded character by character.  Two documented
simplifications that no claim depends on: tag-name characters
(`unicodeRegExp`) are restricted to their ASCII part, and the
dynamic-argument attribute grammar shares the plain grammar's value part
(both grammars consume at least one character, which is all the
termination claim needs).  `isNonPhrasingTag` (from `web/compiler/util`,
not under `src/`) is an options parameter; `isPlainTextElement` and the
`pre,textarea` first-newline map follow `makeMap('...', true)` of
`shared/util` (lower-cased lookup).
-/

def toLowerStr (s : Str) : Str := s.map Char.toLower

/-- `haystack.indexOf(pattern)`. -/
def indexOfSub (pat : Str) : Str → Option Nat
  | [] => if pat.isEmpty then some 0 else none
  | c :: rest =>
    if pat.isPrefixOf (c :: rest) then some 0
    else (indexOfSub pat rest).map (· + 1)

def isPrefixOfCI (pat s : Str) : Bool :=
  decide (pat.length ≤ s.length) &&
    toLowerStr (s.take pat.length) == toLowerStr pat

/-- JavaScript `String.prototype.substring` (swaps its bounds when given in
descending order). -/
def jsSubstring (s : Str) (a b : Nat) : Str :=
  if a ≤ b then (s.take b).drop a else (s.take a).drop b

def ncnameStart (c : Char) : Bool := c.isAlpha || c == '_'

def ncnameChar (c : Char) : Bool :=
  c.isAlphanum || c == '-' || c == '.' || c == '_'

def parseNcname (s : Str) : Option (Str × Str) :=
  match s with
  | c :: r =>
    if ncnameStart c then some (c :: r.takeWhile ncnameChar, r.dropWhile ncnameChar)
    else none
  | [] => none

/-- `qnameCapture = ((ncname:)?ncname)`. -/
def parseQname (s : Str) : Option (Str × Str) :=
  match parseNcname s with
  | none => none
  | some (n1, rest) =>
    match rest with
    | ':' :: r2 =>
      match parseNcname r2 with
      | some (n2, r3) => some (n1 ++ ':' :: n2, r3)
      | none => some (n1, rest)
    | _ => some (n1, rest)

/-- `startTagOpen = ^<qname`: consumed length and tag name. -/
def startTagOpenM (s : Str) : Option (Nat × Str) :=
  match s with
  | '<' :: r => (parseQname r).map (fun p => (1 + p.1.length, p.1))
  | _ => none

/-- `endTag = ^</qname[^>]*>`: consumed length and tag name. -/
def endTagM (s : Str) : Option (Nat × Str) :=
  match s with
  | '<' :: '/' :: r =>
    match parseQname r with
    | some (q, r2) =>
      let junk := r2.takeWhile (· != '>')
      (match r2.drop junk.length with
        | '>' :: _ => some (2 + q.length + junk.length + 1, q)
        | _ => none)
    | none => none
  | _ => none

def endTagTest (s : Str) : Bool := (endTagM s).isSome

def startTagOpenTest (s : Str) : Bool := (startTagOpenM s).isSome

def commentTest (s : Str) : Bool := (strL "<!--").isPrefixOf s

def conditionalTest (s : Str) : Bool := (strL "<![").isPrefixOf s

/-- `doctype = ^<!DOCTYPE [^>]+>` (case-insensitive): consumed length. -/
def doctypeM (s : Str) : Option Nat :=
  if isPrefixOfCI (strL "<!DOCTYPE ") s then
    match (s.drop 10).findIdx? (· == '>') with
    | some j => if 1 ≤ j then some (10 + j + 1) else none
    | none => none
  else none

/-- `startTagClose = ^\s*(\/?)>`: consumed length and the unary slash. -/
def startTagCloseM (s : Str) : Option (Nat × Bool) :=
  let w := s.takeWhile isWS
  match s.drop w.length with
  | '/' :: '>' :: _ => some (w.length + 2, true)
  | '>' :: _ => some (w.length + 1, false)
  | _ => none

def attrNameChar (c : Char) : Bool :=
  !(isWS c || c == '"' || c == '\x27' || c == '<' || c == '>' || c == '/' ||
    c == '=')

def unquotedChar (c : Char) : Bool :=
  !(isWS c || c == '"' || c == '\x27' || c == '=' || c == '<' || c == '>' ||
    c == '\x60')

/-- The optional attribute-value part
`(?:\s*(=)\s*(?:"([^"]*)"+|\x27([^\x27]*)\x27+|([^\s"\x27=<>\x60]+)))?`:
extra consumed length and the raw value when the whole group matches. -/
def attrValuePart (s : Str) : Option (Nat × Str) :=
  let w1 := s.takeWhile isWS
  match s.drop w1.length with
  | '=' :: r1 =>
    let w2 := r1.takeWhile isWS
    let r2 := r1.drop w2.length
    (match r2 with
      | '"' :: r3 =>
        let v := r3.takeWhile (· != '"')
        let qs := (r3.drop v.length).takeWhile (· == '"')
        if qs.isEmpty then none
        else some (w1.length + 1 + w2.length + 1 + v.length + qs.length, v)
      | '\x27' :: r3 =>
        let v := r3.takeWhile (· != '\x27')
        let qs := (r3.drop v.length).takeWhile (· == '\x27')
        if qs.isEmpty then none
        else some (w1.length + 1 + w2.length + 1 + v.length + qs.length, v)
      | _ =>
        let v := r2.takeWhile unquotedChar
        if v.isEmpty then none
        else some (w1.length + 1 + w2.length + v.length, v))
  | _ => none

/-- The `attribute` grammar: leading whitespace, a non-empty name, an
optional value. -/
def plainAttrM (s : Str) : Option (Nat × Str × Option Str) :=
  let w := s.takeWhile isWS
  let r := s.drop w.length
  let name := r.takeWhile attrNameChar
  if name.isEmpty then none
  else
    match attrValuePart (r.drop name.length) with
    | some (n, v) => some (w.length + name.length + n, name, some v)
    | none => some (w.length + name.length, name, none)

/-- The directive prefix of `dynamicArgAttribute`:
`(?:v-[\w-]+:|@|:|#)`. -/
def dynAttrHead (r : Str) : Option (Nat × Str) :=
  match r with
  | '@' :: _ => some (1, ['@'])
  | ':' :: _ => some (1, [':'])
  | '#' :: _ => some (1, ['#'])
  | 'v' :: '-' :: r2 =>
    let w := r2.takeWhile (fun c => c.isAlphanum || c == '_' || c == '-')
    if w.isEmpty then none
    else
      (match r2.drop w.length with
        | ':' :: _ => some (2 + w.length + 1, 'v' :: '-' :: w ++ [':'])
        | _ => none)
  | _ => none

/-- The `dynamicArgAttribute` grammar: prefix, `[` non-empty non-`=`
content `]`, a name tail, an optional value. -/
def dynAttrM (s : Str) : Option (Nat × Str × Option Str) :=
  let w := s.takeWhile isWS
  let r := s.drop w.length
  match dynAttrHead r with
  | none => none
  | some (np, pfx) =>
    match r.drop np with
    | '[' :: r2 =>
      let content := r2.takeWhile (fun c => c != ']' && c != '=')
      if content.isEmpty then none
      else
        (match r2.drop content.length with
          | ']' :: r3 =>
            let tail := r3.takeWhile attrNameChar
            let name := pfx ++ '[' :: content ++ ']' :: tail
            let consumed := w.length + np + 1 + content.length + 1 + tail.length
            (match attrValuePart (r3.drop tail.length) with
              | some (n, v) => some (consumed + n, name, some v)
              | none => some (consumed, name, none))
          | _ => none)
    | _ => none

/-- `html.match(dynamicArgAttribute) || html.match(attribute)`. -/
def attrMatchM (s : Str) : Option (Nat × Str × Option Str) :=
  match dynAttrM s with
  | some r => some r
  | none => plainAttrM s

structure RawAttr where
  name : Str
  value : Option Str
deriving DecidableEq, Repr

/-- The attribute loop of `parseStartTag`: while no `startTagClose` match,
consume attributes; returns total consumed length, the attributes, and the
close result when found (`none` = the open tag never closed — the consumed
part stays consumed, as `advance` already ran in the source). -/
def attrLoop : Nat → Str → Nat × List RawAttr × Option Bool
  | 0, _ => (0, [], none)
  | fuel + 1, s =>
    match startTagCloseM s with
    | some (nc, slash) => (nc, [], some slash)
    | none =>
      match attrMatchM s with
      | none => (0, [], none)
      | some (na, name, v) =>
        let r := attrLoop fuel (s.drop na)
        (na + r.1, ⟨name, v⟩ :: r.2.1, r.2.2)

structure StartTagMatch where
  tagName : Str
  attrs : List RawAttr
  unarySlash : Bool
deriving DecidableEq, Repr

/-- `parseStartTag`: total characters consumed (also on failure, matching
the source's in-place `advance` calls) and the match when the close was
found. -/
def parseStartTagF (s : Str) : Nat × Option StartTagMatch :=
  match startTagOpenM s with
  | none => (0, none)
  | some (n0, tag) =>
    let rest := s.drop n0
    let r := attrLoop (rest.length + 1) rest
    match r.2.2 with
    | some slash => (n0 + r.1, some ⟨tag, r.2.1, slash⟩)
    | none => (n0 + r.1, none)

inductive TokEvent where
  | startE (tag : Str) (attrs : List (Str × Str)) (unary : Bool)
  | endE (tag : Str)
  | textE (s : Str)
  | commentE (s : Str)
deriving DecidableEq, Repr

structure TagFrame where
  tag : Str
  lowerCasedTag : Str
deriving DecidableEq, Repr

/-- The options `parseHTML` consults for control flow.  `isNonPhrasingTag`
lives in `web/compiler/util`, which is not under `src/`; it is passed in
like the other platform predicates. -/
structure TokOpts where
  expectHTML : Bool
  isUnaryTag : Str → Bool
  canBeLeftOpenTag : Str → Bool
  isNonPhrasingTag : Str → Bool
  shouldKeepComment : Bool
  shouldDecodeNewlines : Bool
  shouldDecodeNewlinesForHref : Bool

/-- `makeMap('script,style,textarea', true)`. -/
def isPlainTextElement (tag : Str) : Bool :=
  let l := toLowerStr tag
  l == strL "script" || l == strL "style" || l == strL "textarea"

/-- `shouldIgnoreFirstNewline`: `makeMap('pre,textarea', true)` plus a
leading newline. -/
def shouldIgnoreFirstNewlineF (tag : Str) (html : Str) : Bool :=
  (toLowerStr tag == strL "pre" || toLowerStr tag == strL "textarea") &&
    html.head? == some '\n'

def decodeTable (withNewlines : Bool) : List (Str × Char) :=
  [(strL "&lt;", '<'), (strL "&gt;", '>'), (strL "&quot;", '"'),
    (strL "&amp;", '&'), (strL "&#39;", '\x27')] ++
    (if withNewlines then [(strL "&#10;", '\n'), (strL "&#9;", '\t')] else [])

def decodeAttrGo (table : List (Str × Char)) : Nat → Str → Str
  | 0, s => s
  | _, [] => []
  | fuel + 1, c :: rest =>
    match table.find? (fun p => p.1.isPrefixOf (c :: rest)) with
    | some p => p.2 :: decodeAttrGo table fuel ((c :: rest).drop p.1.length)
    | none => c :: decodeAttrGo table fuel rest

/-- `decodeAttr`: entity decoding of an attribute value. -/
def decodeAttr (withNewlines : Bool) (v : Str) : Str :=
  decodeAttrGo (decodeTable withNewlines) (v.length + 1) v

/-- `parseEndTag`: find the nearest same-named (lower-cased) open tag from
the stack top, emit an end event for it and every unclosed tag above it,
pop through it; an unmatched `</br>` or `</p>` synthesizes the
browser-compatible events.  `none` (no tag) closes the whole stack.  The
stack holds the newest frame first. -/
def parseEndTagF (stack : List TagFrame) (tagName : Option Str) :
    List TokEvent × List TagFrame :=
  match tagName with
  | some t =>
    let lower := toLowerStr t
    (match stack.findIdx? (fun f => f.lowerCasedTag == lower) with
      | some pos =>
        ((stack.take (pos + 1)).map (fun f => .endE f.tag),
          stack.drop (pos + 1))
      | none =>
        if lower == strL "br" then ([.startE t [] true], stack)
        else if lower == strL "p" then ([.startE t [] false, .endE t], stack)
        else ([], stack))
  | none => (stack.map (fun f => .endE f.tag), [])

/-- `handleStartTag`: the two `expectHTML` auto-closing fixups, unary
detection, attribute-value decoding, the stack push for a non-unary tag,
and the start event. -/
def handleStartTagF (opts : TokOpts) (stack : List TagFrame)
    (m : StartTagMatch) : List TokEvent × List TagFrame :=
  let r1 :=
    if opts.expectHTML && (stack.head?.map (fun f => f.tag)) == some (strL "p") &&
        opts.isNonPhrasingTag m.tagName then
      parseEndTagF stack (some (strL "p"))
    else ([], stack)
  let r2 :=
    if opts.expectHTML && opts.canBeLeftOpenTag m.tagName &&
        (r1.2.head?.map (fun f => f.tag)) == some m.tagName then
      parseEndTagF r1.2 (some m.tagName)
    else ([], r1.2)
  let unary := opts.isUnaryTag m.tagName || m.unarySlash
  let attrs := m.attrs.map (fun a =>
    let shouldDecode :=
      if m.tagName == strL "a" && a.name == strL "href" then
        opts.shouldDecodeNewlinesForHref
      else opts.shouldDecodeNewlines
    (a.name, decodeAttr shouldDecode (a.value.getD [])))
  let stack3 :=
    if !unary then ⟨m.tagName, toLowerStr m.tagName⟩ :: r2.2 else r2.2
  (r1.1 ++ r2.1 ++ [.startE m.tagName attrs unary], stack3)

/-- `reCache[stackedTag]` applied at the head: `</stackedTag[^>]*>`
case-insensitively; returns the matched length. -/
def matchStackedEnd (lowerTag : Str) (s : Str) : Option Nat :=
  match s with
  | '<' :: '/' :: r =>
    if isPrefixOfCI lowerTag r then
      let r2 := r.drop lowerTag.length
      let junk := r2.takeWhile (· != '>')
      (match r2.drop junk.length with
        | '>' :: _ => some (2 + lowerTag.length + junk.length + 1)
        | _ => none)
    else none
  | _ => none

/-- The first (lazy) match of `([\s\S]*?)(</stackedTag[^>]*>)`: the text
length before the end tag and the end tag's length. -/
def findStackedEnd (lowerTag : Str) : Str → Option (Nat × Nat)
  | [] => none
  | c :: rest =>
    match matchStackedEnd lowerTag (c :: rest) with
    | some l => some (0, l)
    | none => (findStackedEnd lowerTag rest).map (fun p => (p.1 + 1, p.2))

/-- One global-regex replacement pass keeping the wrapped content:
`replace(openP ([\s\S]*?) closeP, '$1')`. -/
def replaceWrapped (openP closeP : Str) : Nat → Str → Str
  | 0, s => s
  | fuel + 1, s =>
    match indexOfSub openP s with
    | none => s
    | some i =>
      let afterOpen := s.drop (i + openP.length)
      (match indexOfSub closeP afterOpen with
        | none => s
        | some j =>
          s.take i ++ afterOpen.take j ++
            replaceWrapped openP closeP fuel (afterOpen.drop (j + closeP.length)))

/-- The comment/CDATA unwrapping applied to raw text of a non-plaintext
stacked tag (`#7298`; unreachable for script/style/textarea but kept as in
the source). -/
def stripCommentsCdata (s : Str) : Str :=
  let s1 := replaceWrapped (strL "<!--") (strL "-->") (s.length + 1) s
  replaceWrapped (strL "<![CDATA[") (strL "]]>") (s1.length + 1) s1

structure IterOut where
  consumed : Nat
  events : List TokEvent
  stack : List TagFrame
deriving DecidableEq, Repr

/-- The inner `while` loop that walks `textEnd` forward past bare `<`
characters that start no recognized construct. -/
def advanceTE (html2 : Str) : Nat → Nat → Nat
  | 0, te => te
  | fuel + 1, te =>
    let rest := html2.drop te
    if endTagTest rest || startTagOpenTest rest || commentTest rest ||
        conditionalTest rest then te
    else
      match (rest.drop 1).findIdx? (· == '<') with
      | none => te
      | some k => advanceTE html2 fuel (te + 1 + k)

/-- The text-extraction tail of one iteration: `rest = html.slice(textEnd)`
walked forward by `advanceTE`, then `text = html.substring(0, textEnd)` —
or the whole string when there is no `<` at all; emits the Text event when
the text is non-empty. -/
def textRegion (html2 : Str) (textEnd : Option Nat) : Nat × List TokEvent :=
  match textEnd with
  | none => (html2.length, if html2.isEmpty then [] else [.textE html2])
  | some te0 =>
    let te := advanceTE html2 (html2.length + 1) te0
    let text := html2.take te
    (text.length, if text.isEmpty then [] else [.textE text])

/-- A start-tag attempt followed by the text logic: a successful match goes
through `handleStartTag` (plus the pre/textarea first-newline skip); a
failed match leaves its consumed prefix consumed — exactly as the source's
`parseStartTag` advances the shared `html` — and the text logic continues
on the advanced string with `textEnd` still `0`. -/
def startTagOrText (opts : TokOpts) (stack : List TagFrame) (html : Str) :
    IterOut :=
  match parseStartTagF html with
  | (k, some m) =>
    let r := handleStartTagF opts stack m
    let extra := if shouldIgnoreFirstNewlineF m.tagName (html.drop k) then 1
      else 0
    { consumed := k + extra, events := r.1, stack := r.2 }
  | (k, none) =>
    let t := textRegion (html.drop k) (some 0)
    { consumed := k + t.1, events := t.2, stack := stack }

/-- One iteration of the main scan loop outside raw-text mode: the
`textEnd == 0` construct ladder (comment, conditional comment, doctype,
end tag, start tag) with its fallthroughs, then the text logic. -/
def scanIterTextMode (opts : TokOpts) (stack : List TagFrame) (html : Str) :
    IterOut :=
  let textEnd := html.findIdx? (· == '<')
  if textEnd == some 0 then
    match (if commentTest html then indexOfSub (strL "-->") html else none) with
    | some ce =>
      { consumed := ce + 3
        events := if opts.shouldKeepComment then
            [.commentE (jsSubstring html 4 ce)]
          else []
        stack := stack }
    | none =>
      match (if conditionalTest html then indexOfSub (strL "]>") html
        else none) with
      | some ce => { consumed := ce + 2, events := [], stack := stack }
      | none =>
        match doctypeM html with
        | some n => { consumed := n, events := [], stack := stack }
        | none =>
          match endTagM html with
          | some (n, tag) =>
            let r := parseEndTagF stack (some tag)
            { consumed := n, events := r.1, stack := r.2 }
          | none => startTagOrText opts stack html
  else
    let t := textRegion html textEnd
    { consumed := t.1, events := t.2, stack := stack }

/-- One iteration in raw-text mode (`lastTag` is script/style/textarea):
everything up to the matching end tag is text (with the dead-in-practice
comment/CDATA strip kept as written and the pre/textarea first-newline
drop), then `parseEndTag(stackedTag)`; with no end tag in sight nothing is
consumed and `parseEndTag` still runs — the outer loop's no-progress guard
then stops the scan. -/
def scanIterPlainText (_opts : TokOpts) (stack : List TagFrame) (html : Str)
    (lastTag : Str) : IterOut :=
  let stackedTag := toLowerStr lastTag
  match findStackedEnd stackedTag html with
  | some (i, l) =>
    let text0 := html.take i
    let text1 :=
      if !isPlainTextElement stackedTag && stackedTag != strL "noscript" then
        stripCommentsCdata text0
      else text0
    let text2 :=
      if shouldIgnoreFirstNewlineF stackedTag text1 then text1.drop 1
      else text1
    let r := parseEndTagF stack (some stackedTag)
    { consumed := i + l, events := .textE text2 :: r.1, stack := r.2 }
  | none =>
    let r := parseEndTagF stack (some stackedTag)
    { consumed := 0, events := r.1, stack := r.2 }

/-- One iteration of `parseHTML`'s `while (html)` loop. -/
def scanIter (opts : TokOpts) (stack : List TagFrame) (html : Str) : IterOut :=
  match stack.head? with
  | some f =>
    if isPlainTextElement f.tag then scanIterPlainText opts stack html f.tag
    else scanIterTextMode opts stack html
  | none => scanIterTextMode opts stack html

/-- The final `parseEndTag()` after the loop: end events for every tag left
open. -/
def finalEnds (stack : List TagFrame) : List TokEvent :=
  (parseEndTagF stack none).1

/-- The `while (html)` loop with explicit fuel (one unit per iteration):
stop when the input is exhausted (then close leftovers), stop emitting the
remainder as text when an iteration makes no progress (`html === last`),
else consume and continue.  `none` means the fuel ran out before the loop
finished. -/
def scanLoop (opts : TokOpts) : Nat → Str → List TagFrame →
    Option (List TokEvent)
  | 0, _, _ => none
  | fuel + 1, html, stack =>
    if html.isEmpty then some (finalEnds stack)
    else
      let r := scanIter opts stack html
      let html2 := html.drop r.consumed
      if html2 = html then
        some (r.events ++ [.textE html] ++ finalEnds r.stack)
      else (scanLoop opts fuel html2 r.stack).map (fun evs => r.events ++ evs)

/-- `parseHTML(html, options)`: the scan loop run with enough fuel. -/
def parseHTML (opts : TokOpts) (html : Str) : Option (List TokEvent) :=
  scanLoop opts (html.length + 1) html []

theorem drop_ne_length_lt {α : Type} (l : List α) (m : Nat)
    (h : l.drop m ≠ l) : (l.drop m).length < l.length := by
  rcases Nat.eq_zero_or_pos m with hm | hm
  · subst hm
    simp at h
  · rcases l with _ | ⟨c, rest⟩
    · simp at h
    · rw [List.length_drop]
      simp only [List.length_cons]
      omega

theorem scanLoop_succ (opts : TokOpts) (f : Nat) (html : Str)
    (stack : List TagFrame) (h : html ≠ []) :
    scanLoop opts (f + 1) html stack =
      (if html.drop (scanIter opts stack html).consumed = html then
        some ((scanIter opts stack html).events ++ [.textE html] ++
          finalEnds (scanIter opts stack html).stack)
      else
        (scanLoop opts f (html.drop (scanIter opts stack html).consumed)
            (scanIter opts stack html).stack).map
          (fun evs => (scanIter opts stack html).events ++ evs)) := by
  simp only [scanLoop]
  rw [if_neg (by simpa using h)]

theorem scanLoop_fuel : (n : Nat) → ∀ (opts : TokOpts) (html : Str)
    (stack : List TagFrame) (fuel : Nat), html.length ≤ n →
      html.length < fuel →
      (scanLoop opts fuel html stack =
          scanLoop opts (html.length + 1) html stack ∧
        (scanLoop opts fuel html stack).isSome = true)
  | 0, opts, html, stack, fuel, hn, hf => by
    have hemp : html = [] := by
      cases html with
      | nil => rfl
      | cons c r => simp at hn
    subst hemp
    obtain ⟨f, rfl⟩ : ∃ f, fuel = f + 1 := ⟨fuel - 1, by omega⟩
    exact ⟨rfl, rfl⟩
  | n + 1, opts, html, stack, fuel, hn, hf => by
    obtain ⟨f, rfl⟩ : ∃ f, fuel = f + 1 := ⟨fuel - 1, by omega⟩
    by_cases hemp : html = []
    · subst hemp
      exact ⟨rfl, rfl⟩
    · rw [scanLoop_succ opts f html stack hemp,
        scanLoop_succ opts html.length html stack hemp]
      by_cases hsame : html.drop (scanIter opts stack html).consumed = html
      · rw [if_pos hsame, if_pos hsame]
        exact ⟨rfl, rfl⟩
      · rw [if_neg hsame, if_neg hsame]
        have hlt : (html.drop (scanIter opts stack html).consumed).length <
            html.length := drop_ne_length_lt _ _ hsame
        have ih1 := scanLoop_fuel n opts
          (html.drop (scanIter opts stack html).consumed)
          (scanIter opts stack html).stack f (by omega) (by omega)
        have ih2 := scanLoop_fuel n opts
          (html.drop (scanIter opts stack html).consumed)
          (scanIter opts stack html).stack html.length (by omega) (by omega)
        refine ⟨by rw [ih1.1, ih2.1], ?_⟩
        obtain ⟨v, hv⟩ := Option.isSome_iff_exists.mp ih1.2
        rw [hv]
        rfl

/-- C4: the scan loop of `parseHTML` terminates on every input: with any
fuel beyond the input length the loop completes (`isSome`), the result is
fuel-independent — each iteration either consumes at least one character or
trips the `html === last` guard — and whenever an iteration makes no
forward progress on a non-empty remainder, that remainder is emitted as a
Text event (after the iteration's own events) and the loop stops with only
the final unclosed-tag events following. -/
theorem claim_C4_scan_terminates (opts : TokOpts) (stack : List TagFrame)
    (html : Str) (fuel : Nat) (hf : html.length < fuel) :
    (scanLoop opts fuel html stack).isSome = true ∧
      scanLoop opts fuel html stack =
        scanLoop opts (html.length + 1) html stack ∧
      (html ≠ [] → html.drop (scanIter opts stack html).consumed = html →
        scanLoop opts fuel html stack =
          some ((scanIter opts stack html).events ++ [.textE html] ++
            finalEnds (scanIter opts stack html).stack)) := by
  have h := scanLoop_fuel html.length opts html stack fuel le_rfl hf
  refine ⟨h.2, h.1, fun hne hsame => ?_⟩
  obtain ⟨f, rfl⟩ : ∃ f, fuel = f + 1 := ⟨fuel - 1, by omega⟩
  rw [scanLoop_succ opts f html stack hne, if_pos hsame]

def demoTokOpts : TokOpts :=
  { expectHTML := true
    isUnaryTag := fun t => t == strL "br"
    canBeLeftOpenTag := fun t => t == strL "p"
    isNonPhrasingTag := fun t => t == strL "div"
    shouldKeepComment := true
    shouldDecodeNewlines := false
    shouldDecodeNewlinesForHref := false }

theorem claim_C4_witness :
    (strL "<div>x</div>").length < 13 ∧
      (scanLoop demoTokOpts 13 (strL "<div>x</div>") []).isSome = true ∧
      parseHTML demoTokOpts (strL "<!--oops") =
        some [.textE (strL "<!--oops")] :=
  ⟨by decide,
    (claim_C4_scan_terminates demoTokOpts [] (strL "<div>x</div>") 13
      (by decide)).1,
    by decide⟩

end VueSpec
